import Mathlib

/-!
Verification development for the `ashby-crawler` worker: a multi-provider
ATS ingestion pipeline (Common Crawl discovery + provider job-board sync
+ D1 upserts).  Rust strings are embedded as `List Char` wherever the
source manipulates individual characters or compares lexicographically,
and as `String` where the source treats them opaquely.  Fallible Rust
functions (`worker::Result`) are embedded as `Except String`.  SQLite
`NULL` is `Option.none`; `datetime('now')` is an explicit time parameter.
-/

set_option autoImplicit false

namespace AshbyCrawler

/-- Character-list view of a Rust `&str` / `String`. -/
abbrev Str := List Char

/-- `str::trim_end_matches(c)`: drop every trailing occurrence of `c`. -/
def trimEndMatches (c : Char) (s : Str) : Str :=
  (s.reverse.dropWhile (fun x => x = c)).reverse

/-- `str::find(needle)`: byte index of the first occurrence of a substring
(char index here; the needles used are ASCII so the two coincide). -/
def findSubstr (needle : Str) : Str → Option Nat
  | [] => if needle.isPrefixOf [] then some 0 else none
  | c :: t =>
    if needle.isPrefixOf (c :: t) then some 0
    else (findSubstr needle t).map (· + 1)

/-- `s.split(c).next().unwrap_or(..)`: the segment before the first `c`. -/
def splitNext (c : Char) (s : Str) : Str :=
  s.takeWhile (fun x => x ≠ c)

/-- `str::to_lowercase`, character by character. -/
def lowerStr (s : Str) : Str := s.map Char.toLower

-- ═══════════════════════════════════════════════════════════════════════
-- Provider registry (src/types.rs, `AtsProvider`)
-- ═══════════════════════════════════════════════════════════════════════

/-- The closed provider enum of `src/types.rs` (Ashby, Greenhouse, Lever). -/
inductive AtsProvider
  | ashby
  | greenhouse
  | lever
deriving DecidableEq, Repr

/-- `AtsProvider::host` — the host portion of the job board URL. -/
def AtsProvider.host : AtsProvider → Str
  | .ashby => "jobs.ashbyhq.com".toList
  | .greenhouse => "job-boards.greenhouse.io".toList
  | .lever => "jobs.lever.co".toList

/-- `AtsProvider::board_url` — `format!("https://{host}/{token}")`. -/
def AtsProvider.boardUrl (p : AtsProvider) (token : Str) : Str :=
  "https://".toList ++ p.host ++ '/' :: token

/-- `AtsProvider::as_str`. -/
def AtsProvider.asStr : AtsProvider → Str
  | .ashby => "ashby".toList
  | .greenhouse => "greenhouse".toList
  | .lever => "lever".toList

-- ═══════════════════════════════════════════════════════════════════════
-- Discovery extractor (src/common_crawl.rs, `extract_board_token`)
-- ═══════════════════════════════════════════════════════════════════════

/-- The reserved path segments rejected by `extract_board_token`. -/
def reservedTokens : List Str :=
  ["api", "static", "favicon.ico", "robots.txt", "sitemap.xml", "jobs"].map
    String.toList

/-- `extract_board_token(url, provider)` from `src/common_crawl.rs`:
trim trailing `/`, locate `"{host}/"`, take the next path segment, strip
`?…` and `#…`, reject empty or reserved segments, lowercase the rest. -/
def extractBoardToken (url : Str) (provider : AtsProvider) : Option Str :=
  let url := trimEndMatches '/' url
  let pre := provider.host ++ ['/']
  match findSubstr pre url with
  | none => none
  | some idx =>
    let after := url.drop (idx + pre.length)
    let token := splitNext '/' after
    let token := splitNext '?' token
    let token := splitNext '#' token
    if token = [] ∨ token ∈ reservedTokens then none
    else some (lowerStr token)

-- ═══════════════════════════════════════════════════════════════════════
-- String-primitive lemmas
-- ═══════════════════════════════════════════════════════════════════════

theorem findSubstr_cons (n : Str) (c : Char) (t : Str) :
    findSubstr n (c :: t) =
      if n.isPrefixOf (c :: t) then some 0 else (findSubstr n t).map (· + 1) := rfl

theorem trimEnd_app_ne {x c : Char} (l : Str) (h : x ≠ c) :
    trimEndMatches c (l ++ [x]) = l ++ [x] := by
  unfold trimEndMatches
  rw [List.reverse_append]
  simp [List.dropWhile_cons, h]

theorem trimEnd_app_slash (u : Str) :
    trimEndMatches '/' (u ++ ['/']) = trimEndMatches '/' u := by
  unfold trimEndMatches
  rw [List.reverse_append]
  simp [List.dropWhile_cons]

theorem isPrefixOf_self_app (l r : Str) : l.isPrefixOf (l ++ r) = true := by
  induction l with
  | nil => simp [List.isPrefixOf]
  | cons a as ih => simp [List.isPrefixOf, ih]

theorem isPrefixOf_cons_ne {a b : Char} (n t : Str) (h : a ≠ b) :
    (a :: n).isPrefixOf (b :: t) = false := by
  simp [List.isPrefixOf, h]

theorem findSubstr_app_of_ne {c : Char} (n pre rest : Str)
    (h : ∀ x ∈ pre, x ≠ c) :
    findSubstr (c :: n) (pre ++ rest) =
      (findSubstr (c :: n) rest).map (· + pre.length) := by
  induction pre with
  | nil =>
    simp only [List.nil_append, List.length_nil]
    cases findSubstr (c :: n) rest <;> simp
  | cons b bs ih =>
    have hb : c ≠ b := fun hh => (h b (by simp)) hh.symm
    rw [List.cons_append, findSubstr_cons, isPrefixOf_cons_ne _ _ hb, if_neg (by simp),
      ih (fun x hx => h x (by simp [hx]))]
    cases findSubstr (c :: n) rest <;> simp [Nat.add_assoc]

theorem findSubstr_at_marker {c : Char} (n pre rest : Str) (h : ∀ x ∈ pre, x ≠ c) :
    findSubstr (c :: n) (pre ++ (c :: n) ++ rest) = some pre.length := by
  rw [List.append_assoc, findSubstr_app_of_ne _ _ _ h]
  have h0 : findSubstr (c :: n) ((c :: n) ++ rest) = some 0 := by
    rw [List.cons_append, findSubstr_cons, ← List.cons_append, isPrefixOf_self_app]
    simp
  rw [h0]
  simp

theorem takeWhile_app_of_all {p : Char → Bool} (l r : Str) (h : ∀ x ∈ l, p x = true) :
    (l ++ r).takeWhile p = l ++ r.takeWhile p := by
  induction l with
  | nil => simp
  | cons a as ih =>
    simp [List.takeWhile_cons, h a (by simp), ih (fun x hx => h x (by simp [hx]))]

theorem takeWhile_eq_self_of_all {p : Char → Bool} (l : Str) (h : ∀ x ∈ l, p x = true) :
    l.takeWhile p = l := by
  have := takeWhile_app_of_all l [] h
  simpa using this

theorem takeWhile_app_cons {p : Char → Bool} (l r : Str) (c : Char)
    (hl : ∀ x ∈ l, p x = true) (hc : p c = false) :
    (l ++ c :: r).takeWhile p = l := by
  rw [takeWhile_app_of_all _ _ hl, List.takeWhile_cons, hc]
  simp

theorem splitNext_eq_self {c : Char} (l : Str) (h : ∀ x ∈ l, x ≠ c) :
    splitNext c l = l :=
  takeWhile_eq_self_of_all l (fun x hx => by simp [h x hx])

-- ═══════════════════════════════════════════════════════════════════════
-- Evaluation of `extract_board_token` on board URLs
-- ═══════════════════════════════════════════════════════════════════════

theorem host_shape (p : AtsProvider) : ∃ htl : Str, p.host = 'j' :: htl := by
  cases p <;> exact ⟨_, rfl⟩

theorem extract_eval (p : AtsProvider) (after : Str)
    (htrim : trimEndMatches '/' ("https://".toList ++ p.host ++ '/' :: after)
              = "https://".toList ++ p.host ++ '/' :: after) :
    extractBoardToken ("https://".toList ++ p.host ++ '/' :: after) p =
      (let token := splitNext '#' (splitNext '?' (splitNext '/' after))
       if token = [] ∨ token ∈ reservedTokens then none else some (lowerStr token)) := by
  obtain ⟨htl, hh⟩ := host_shape p
  have hmarker : "https://".toList ++ p.host ++ '/' :: after
      = "https://".toList ++ ('j' :: (htl ++ ['/'])) ++ after := by
    rw [hh]; simp
  have hneedle : p.host ++ ['/'] = 'j' :: (htl ++ ['/']) := by rw [hh]; simp
  have hfind : findSubstr (p.host ++ ['/']) ("https://".toList ++ p.host ++ '/' :: after)
      = some 8 := by
    rw [hneedle, hmarker, findSubstr_at_marker _ _ _ (by decide)]
    decide
  have hdrop : ("https://".toList ++ p.host ++ '/' :: after).drop (8 + (p.host ++ ['/']).length)
      = after := by
    have h1 : "https://".toList ++ p.host ++ '/' :: after
        = ("https://".toList ++ (p.host ++ ['/'])) ++ after := by simp
    have h2 : ("https://".toList ++ (p.host ++ ['/'])).length = 8 + (p.host ++ ['/']).length := by
      have h8 : ("https://".toList).length = 8 := by decide
      simp [List.length_append, h8]
      omega
    rw [h1, ← h2, List.drop_left]
  simp only [extractBoardToken]
  rw [htrim, hfind]
  simp only [hdrop]

/-- A valid, non-reserved board-URL path segment: non-empty, free of the
path/query/fragment delimiters, and not in the reserved list. -/
def ValidSegment (t : Str) : Prop :=
  t ≠ [] ∧ (∀ c ∈ t, c ≠ '/' ∧ c ≠ '?' ∧ c ≠ '#') ∧ t ∉ reservedTokens

theorem boardUrl_shape (p : AtsProvider) (t : Str) :
    p.boardUrl t = "https://".toList ++ p.host ++ '/' :: t := rfl

theorem extract_boardUrl_valid (p : AtsProvider) (t : Str) (h : ValidSegment t) :
    extractBoardToken (p.boardUrl t) p = some (lowerStr t) := by
  obtain ⟨hne, hchars, hres⟩ := h
  have htrim : trimEndMatches '/' ("https://".toList ++ p.host ++ '/' :: t)
      = "https://".toList ++ p.host ++ '/' :: t := by
    rcases List.eq_nil_or_concat t with h0 | ⟨l, x, hlx⟩
    · exact absurd h0 hne
    · rw [List.concat_eq_append] at hlx
      have hx : x ≠ '/' := (hchars x (by rw [hlx]; simp)).1
      rw [hlx, show "https://".toList ++ p.host ++ '/' :: (l ++ [x])
            = ("https://".toList ++ p.host ++ '/' :: l) ++ [x] by simp,
        trimEnd_app_ne _ hx]
  rw [boardUrl_shape, extract_eval p t htrim]
  have h1 : splitNext '/' t = t := splitNext_eq_self t (fun c hc => (hchars c hc).1)
  have h2 : splitNext '?' t = t := splitNext_eq_self t (fun c hc => (hchars c hc).2.1)
  have h3 : splitNext '#' t = t := splitNext_eq_self t (fun c hc => (hchars c hc).2.2)
  simp only [h1, h2, h3]
  rw [if_neg (by push_neg; exact ⟨hne, hres⟩)]

theorem extract_boardUrl_query (p : AtsProvider) (t q : Str) (h : ValidSegment t)
    (hq : ∀ c ∈ q, c ≠ '/') :
    extractBoardToken (p.boardUrl t ++ '?' :: q) p = some (lowerStr t) := by
  obtain ⟨hne, hchars, hres⟩ := h
  have hurl : p.boardUrl t ++ '?' :: q
      = "https://".toList ++ p.host ++ '/' :: (t ++ '?' :: q) := by
    rw [boardUrl_shape]; simp
  have htrim : trimEndMatches '/' ("https://".toList ++ p.host ++ '/' :: (t ++ '?' :: q))
      = "https://".toList ++ p.host ++ '/' :: (t ++ '?' :: q) := by
    rcases List.eq_nil_or_concat q with h0 | ⟨l, x, hlx⟩
    · rw [h0, show "https://".toList ++ p.host ++ '/' :: (t ++ ['?'])
            = ("https://".toList ++ p.host ++ '/' :: t) ++ ['?'] by simp,
        trimEnd_app_ne _ (by decide)]
    · rw [List.concat_eq_append] at hlx
      have hx : x ≠ '/' := hq x (by rw [hlx]; simp)
      rw [hlx, show "https://".toList ++ p.host ++ '/' :: (t ++ '?' :: (l ++ [x]))
            = ("https://".toList ++ p.host ++ '/' :: (t ++ '?' :: l)) ++ [x] by simp,
        trimEnd_app_ne _ hx]
  rw [hurl, extract_eval p _ htrim]
  have h1 : splitNext '/' (t ++ '?' :: q) = t ++ '?' :: q := by
    refine splitNext_eq_self _ (fun c hc => ?_)
    rcases List.mem_append.1 hc with hc | hc
    · exact (hchars c hc).1
    · rcases List.mem_cons.1 hc with hc | hc
      · rw [hc]; decide
      · exact hq c hc
  have h2 : splitNext '?' (t ++ '?' :: q) = t :=
    takeWhile_app_cons _ _ _ (fun c hc => by simp [(hchars c hc).2.1]) (by decide)
  have h3 : splitNext '#' t = t := splitNext_eq_self t (fun c hc => (hchars c hc).2.2)
  simp only [h1, h2, h3]
  rw [if_neg (by push_neg; exact ⟨hne, hres⟩)]

theorem extract_boardUrl_frag (p : AtsProvider) (t f : Str) (h : ValidSegment t)
    (hf : ∀ c ∈ f, c ≠ '/') :
    extractBoardToken (p.boardUrl t ++ '#' :: f) p = some (lowerStr t) := by
  obtain ⟨hne, hchars, hres⟩ := h
  have hurl : p.boardUrl t ++ '#' :: f
      = "https://".toList ++ p.host ++ '/' :: (t ++ '#' :: f) := by
    rw [boardUrl_shape]; simp
  have htrim : trimEndMatches '/' ("https://".toList ++ p.host ++ '/' :: (t ++ '#' :: f))
      = "https://".toList ++ p.host ++ '/' :: (t ++ '#' :: f) := by
    rcases List.eq_nil_or_concat f with h0 | ⟨l, x, hlx⟩
    · rw [h0, show "https://".toList ++ p.host ++ '/' :: (t ++ ['#'])
            = ("https://".toList ++ p.host ++ '/' :: t) ++ ['#'] by simp,
        trimEnd_app_ne _ (by decide)]
    · rw [List.concat_eq_append] at hlx
      have hx : x ≠ '/' := hf x (by rw [hlx]; simp)
      rw [hlx, show "https://".toList ++ p.host ++ '/' :: (t ++ '#' :: (l ++ [x]))
            = ("https://".toList ++ p.host ++ '/' :: (t ++ '#' :: l)) ++ [x] by simp,
        trimEnd_app_ne _ hx]
  rw [hurl, extract_eval p _ htrim]
  have h1 : splitNext '/' (t ++ '#' :: f) = t ++ '#' :: f := by
    refine splitNext_eq_self _ (fun c hc => ?_)
    rcases List.mem_append.1 hc with hc | hc
    · exact (hchars c hc).1
    · rcases List.mem_cons.1 hc with hc | hc
      · rw [hc]; decide
      · exact hf c hc
  have h2 : splitNext '?' (t ++ '#' :: f)
      = t ++ '#' :: (f.takeWhile (fun x => x ≠ '?')) := by
    unfold splitNext
    rw [takeWhile_app_of_all _ _ (fun c hc => by simp [(hchars c hc).2.1]),
      List.takeWhile_cons]
    simp
  have h3 : splitNext '#' (t ++ '#' :: (f.takeWhile (fun x => x ≠ '?'))) = t :=
    takeWhile_app_cons _ _ _ (fun c hc => by simp [(hchars c hc).2.2]) (by decide)
  simp only [h1, h2, h3]
  rw [if_neg (by push_neg; exact ⟨hne, hres⟩)]

theorem extract_trailing_slash (p : AtsProvider) (u : Str) :
    extractBoardToken (u ++ ['/']) p = extractBoardToken u p := by
  simp only [extractBoardToken, trimEnd_app_slash]

theorem extract_boardUrl_reserved (p : AtsProvider) :
    ∀ r ∈ reservedTokens, extractBoardToken (p.boardUrl r) p = none := by
  cases p <;> decide

theorem extract_boardUrl_empty (p : AtsProvider) :
    extractBoardToken (p.boardUrl []) p = none := by
  cases p <;> decide

/-- C7: for every provider `p` and valid non-reserved segment `t`,
`extract_board_token(board_url(p, t), p)` returns the lowercase of `t`;
reserved tokens and the empty segment yield `none`; a trailing `/` never
changes the result; and `?…` query strings and `#…` fragments are
stripped from the token. -/
theorem c7_token_extraction (p : AtsProvider) (t q f : Str)
    (ht : ValidSegment t) (hq : ∀ c ∈ q, c ≠ '/') (hf : ∀ c ∈ f, c ≠ '/') :
    extractBoardToken (p.boardUrl t) p = some (lowerStr t)
    ∧ (∀ r ∈ reservedTokens, extractBoardToken (p.boardUrl r) p = none)
    ∧ extractBoardToken (p.boardUrl []) p = none
    ∧ (∀ u : Str, extractBoardToken (u ++ ['/']) p = extractBoardToken u p)
    ∧ extractBoardToken (p.boardUrl t ++ '?' :: q) p = some (lowerStr t)
    ∧ extractBoardToken (p.boardUrl t ++ '#' :: f) p = some (lowerStr t) :=
  ⟨extract_boardUrl_valid p t ht,
   extract_boardUrl_reserved p,
   extract_boardUrl_empty p,
   fun u => extract_trailing_slash p u,
   extract_boardUrl_query p t q ht hq,
   extract_boardUrl_frag p t f ht hf⟩

/-- Concrete instance of `c7_token_extraction` (Ashby, token `Acme-Co`). -/
theorem c7_token_extraction_witness :
    extractBoardToken (AtsProvider.boardUrl .ashby "Acme-Co".toList) .ashby
      = some (lowerStr "Acme-Co".toList) :=
  (c7_token_extraction .ashby "Acme-Co".toList "utm=1".toList "top".toList
    ⟨by decide, by decide, by decide⟩ (by decide) (by decide)).1

-- ═══════════════════════════════════════════════════════════════════════
-- CDX records and per-page dedup (src/common_crawl.rs, `fetch_cdx_page`)
-- ═══════════════════════════════════════════════════════════════════════

/-- One parsed CDX line (src/types.rs `CdxRecord`). -/
structure CdxRecord where
  url : Str
  timestamp : Str
  status : Option Str
  mime : Option Str
  mimeDetected : Option Str
  filename : Option Str
  offset : Option Str
  length : Option Str
deriving DecidableEq, Repr

/-- `s.parse::<u64>().ok()` on the digit-only offsets CDX emits (the sign
and overflow edge cases of Rust's parser are not exercised there). -/
def parseU64 (s : Str) : Option Nat :=
  if s ≠ [] ∧ s.all Char.isDigit then
    some (s.foldl (fun n c => n * 10 + (c.toNat - 48)) 0)
  else none

/-- A board discovered via Common Crawl (src/types.rs `DiscoveredBoard`). -/
structure DiscoveredBoard where
  token : Str
  url : Str
  timestamp : Str
  crawlId : Str
  provider : Str
  status : Option Str
  mime : Option Str
  warcFile : Option Str
  warcOffset : Option Nat
  warcLength : Option Nat
deriving DecidableEq, Repr

/-- The `DiscoveredBoard` built from one CDX record in `fetch_cdx_page`. -/
def mkBoard (crawlId : Str) (provider : AtsProvider) (token : Str) (r : CdxRecord) :
    DiscoveredBoard where
  token := token
  url := r.url
  timestamp := r.timestamp
  crawlId := crawlId
  provider := provider.asStr
  status := r.status
  mime := r.mime.or r.mimeDetected
  warcFile := r.filename
  warcOffset := r.offset.bind parseU64
  warcLength := r.length.bind parseU64

/-- The `map.entry(token).and_modify(..).or_insert(board)` step: keep the
existing entry unless the new record's timestamp is strictly larger
(`r.timestamp > e.timestamp`, lexicographic). -/
def hmUpsert (m : List (Str × DiscoveredBoard)) (token : Str) (b : DiscoveredBoard) :
    List (Str × DiscoveredBoard) :=
  match m with
  | [] => [(token, b)]
  | (k, e) :: rest =>
    if k = token then (k, if e.timestamp < b.timestamp then b else e) :: rest
    else (k, e) :: hmUpsert rest token b

/-- One iteration of the record loop of `fetch_cdx_page`: records whose
URL yields no token are skipped, the rest go through the map entry API. -/
def dedupStep (crawlId : Str) (provider : AtsProvider)
    (m : List (Str × DiscoveredBoard)) (r : CdxRecord) :
    List (Str × DiscoveredBoard) :=
  match extractBoardToken r.url provider with
  | none => m
  | some token => hmUpsert m token (mkBoard crawlId provider token r)

/-- The token-keyed map built by the record loop of `fetch_cdx_page`. -/
def dedupFold (crawlId : Str) (provider : AtsProvider) (records : List CdxRecord) :
    List (Str × DiscoveredBoard) :=
  records.foldl (dedupStep crawlId provider) []

/-- `fetch_cdx_page`'s result for one page, from the parsed records:
the deduplicated map's values (`map.into_values().collect()`). -/
def fetchCdxBoards (crawlId : Str) (provider : AtsProvider) (records : List CdxRecord) :
    List DiscoveredBoard :=
  (dedupFold crawlId provider records).map (·.2)

/-- `all_new_boards.extend(boards)` over the per-page results, as in the
page loops of `handle_crawl` / `cron_handler_inner`: plain concatenation,
with no cross-page dedup. -/
def collectPages (crawlId : Str) (provider : AtsProvider)
    (pages : List (List CdxRecord)) : List DiscoveredBoard :=
  pages.foldl (fun acc recs => acc ++ fetchCdxBoards crawlId provider recs) []

-- Assoc-list lemmas for the HashMap model -------------------------------

def hmFind (k : Str) : List (Str × DiscoveredBoard) → Option DiscoveredBoard
  | [] => none
  | (k', e) :: rest => if k' = k then some e else hmFind k rest

theorem hmFind_eq_none_of_not_mem {k : Str} {m : List (Str × DiscoveredBoard)}
    (h : k ∉ m.map (·.1)) : hmFind k m = none := by
  induction m with
  | nil => rfl
  | cons kb rest ih =>
    obtain ⟨k', e⟩ := kb
    simp only [List.map_cons, List.mem_cons] at h
    push_neg at h
    have hne : ¬ k' = k := fun hh => h.1 hh.symm
    simp only [hmFind, if_neg hne, ih h.2]

theorem hmFind_of_mem {m : List (Str × DiscoveredBoard)}
    (hnd : (m.map (·.1)).Nodup) {kb : Str × DiscoveredBoard} (h : kb ∈ m) :
    hmFind kb.1 m = some kb.2 := by
  induction m with
  | nil => cases h
  | cons hd rest ih =>
    obtain ⟨k', e⟩ := hd
    simp only [List.map_cons, List.nodup_cons] at hnd
    rcases List.mem_cons.1 h with h | h
    · subst h; simp [hmFind]
    · have hne : k' ≠ kb.1 := by
        intro hh
        exact hnd.1 (hh ▸ List.mem_map.2 ⟨kb, h, rfl⟩)
      simp only [hmFind, if_neg hne]
      exact ih hnd.2 h

theorem mem_values_of_find {k : Str} {b : DiscoveredBoard} :
    ∀ {m : List (Str × DiscoveredBoard)}, hmFind k m = some b → b ∈ m.map (·.2)
  | [], hk => by cases hk
  | (k', e) :: rest, hk => by
    by_cases hke : k' = k
    · simp only [hmFind, if_pos hke] at hk
      have he : e = b := Option.some_inj.1 hk
      subst he
      rw [List.map_cons]
      exact List.mem_cons_self _ _
    · simp only [hmFind, if_neg hke] at hk
      rw [List.map_cons]
      exact List.mem_cons_of_mem _ (mem_values_of_find hk)

theorem mem_values_iff_find {m : List (Str × DiscoveredBoard)}
    (hnd : (m.map (·.1)).Nodup) (b : DiscoveredBoard) :
    b ∈ m.map (·.2) ↔ ∃ k, hmFind k m = some b := by
  constructor
  · intro h
    obtain ⟨kb, hmem, hb⟩ := List.mem_map.1 h
    exact ⟨kb.1, hb ▸ hmFind_of_mem hnd hmem⟩
  · rintro ⟨k, hk⟩
    exact mem_values_of_find hk

theorem hmUpsert_keys (m : List (Str × DiscoveredBoard)) (k : Str) (b : DiscoveredBoard) :
    (hmUpsert m k b).map (·.1) =
      if k ∈ m.map (·.1) then m.map (·.1) else m.map (·.1) ++ [k] := by
  induction m with
  | nil => simp [hmUpsert]
  | cons hd rest ih =>
    obtain ⟨k', e⟩ := hd
    by_cases hk : k' = k
    · subst hk
      simp only [hmUpsert, eq_self_iff_true, if_true, List.map_cons]
      rw [if_pos (List.mem_cons_self _ _)]
    · simp only [hmUpsert, if_neg hk, List.map_cons, ih]
      by_cases hmem : k ∈ rest.map (·.1) <;>
        simp [hmem, Ne.symm hk]

theorem hmFind_upsert_self (m : List (Str × DiscoveredBoard)) (k : Str)
    (b : DiscoveredBoard) :
    hmFind k (hmUpsert m k b) =
      some (match hmFind k m with
            | none => b
            | some e => if e.timestamp < b.timestamp then b else e) := by
  induction m with
  | nil => simp [hmUpsert, hmFind]
  | cons hd rest ih =>
    obtain ⟨k', e⟩ := hd
    by_cases hk : k' = k
    · subst hk
      simp [hmUpsert, hmFind]
    · simp only [hmUpsert, if_neg hk, hmFind, ih]

theorem hmFind_upsert_other (m : List (Str × DiscoveredBoard)) (k k' : Str)
    (b : DiscoveredBoard) (h : k' ≠ k) :
    hmFind k' (hmUpsert m k b) = hmFind k' m := by
  induction m with
  | nil => simp [hmUpsert, hmFind, Ne.symm h]
  | cons hd rest ih =>
    obtain ⟨k0, e⟩ := hd
    by_cases hk : k0 = k
    · subst hk
      simp [hmUpsert, hmFind, Ne.symm h]
    · simp only [hmUpsert, if_neg hk, hmFind, ih]

-- The dedup invariant ---------------------------------------------------

/-- Invariant of the dedup map after processing the records `seen`:
keys are distinct, keys are exactly the extractable tokens of `seen`,
and each entry is the board of some seen record of its token carrying the
maximal timestamp among that token's seen records. -/
def DedupInv (cid : Str) (p : AtsProvider) (seen : List CdxRecord)
    (m : List (Str × DiscoveredBoard)) : Prop :=
  (m.map (·.1)).Nodup
  ∧ (∀ t, t ∈ m.map (·.1) ↔ ∃ r ∈ seen, extractBoardToken r.url p = some t)
  ∧ (∀ t b, hmFind t m = some b →
      b.token = t
      ∧ (∃ r ∈ seen, extractBoardToken r.url p = some t ∧ b = mkBoard cid p t r)
      ∧ (∀ r ∈ seen, extractBoardToken r.url p = some t → r.timestamp ≤ b.timestamp))

theorem dedupInv_nil (cid : Str) (p : AtsProvider) : DedupInv cid p [] [] := by
  refine ⟨List.nodup_nil, fun t => ?_, fun t b hb => by cases hb⟩
  simp

theorem dedupInv_step (cid : Str) (p : AtsProvider) (seen : List CdxRecord)
    (m : List (Str × DiscoveredBoard)) (r : CdxRecord)
    (h : DedupInv cid p seen m) :
    DedupInv cid p (seen ++ [r]) (dedupStep cid p m r) := by
  obtain ⟨hnd, hkeys, hfind⟩ := h
  unfold dedupStep
  cases hext : extractBoardToken r.url p with
  | none =>
    refine ⟨hnd, fun t => ?_, fun t b hb => ?_⟩
    · rw [hkeys t]
      constructor
      · rintro ⟨r', hr', he⟩; exact ⟨r', by simp [hr'], he⟩
      · rintro ⟨r', hr', he⟩
        rcases List.mem_append.1 hr' with hr' | hr'
        · exact ⟨r', hr', he⟩
        · obtain rfl : r' = r := by simpa using hr'
          rw [hext] at he; cases he
    · obtain ⟨htok, ⟨r', hr', he, hbe⟩, hmax⟩ := hfind t b hb
      refine ⟨htok, ⟨r', by simp [hr'], he, hbe⟩, fun r2 hr2 he2 => ?_⟩
      rcases List.mem_append.1 hr2 with hr2 | hr2
      · exact hmax r2 hr2 he2
      · obtain rfl : r2 = r := by simpa using hr2
        rw [hext] at he2; cases he2
  | some tok =>
    refine ⟨?_, fun t => ?_, fun t b hb => ?_⟩
    · rw [hmUpsert_keys]
      by_cases hmem : tok ∈ m.map (·.1)
      · simpa [hmem] using hnd
      · rw [if_neg hmem]
        refine List.Nodup.append hnd (List.nodup_singleton tok) ?_
        intro x hx hx'
        obtain rfl : x = tok := by simpa using hx'
        exact hmem hx
    · rw [hmUpsert_keys]
      by_cases hmem : tok ∈ m.map (·.1)
      · rw [if_pos hmem, hkeys t]
        constructor
        · rintro ⟨r', hr', he⟩; exact ⟨r', by simp [hr'], he⟩
        · rintro ⟨r', hr', he⟩
          rcases List.mem_append.1 hr' with hr' | hr'
          · exact ⟨r', hr', he⟩
          · obtain rfl : r' = r := by simpa using hr'
            rw [hext] at he
            exact (Option.some_inj.1 he) ▸ (hkeys tok).1 hmem
      · rw [if_neg hmem, List.mem_append]
        constructor
        · rintro (ht | ht)
          · obtain ⟨r', hr', he⟩ := (hkeys t).1 ht
            exact ⟨r', by simp [hr'], he⟩
          · obtain rfl : t = tok := by simpa using ht
            exact ⟨r, by simp, hext⟩
        · rintro ⟨r', hr', he⟩
          rcases List.mem_append.1 hr' with hr' | hr'
          · exact Or.inl ((hkeys t).2 ⟨r', hr', he⟩)
          · obtain rfl : r' = r := by simpa using hr'
            rw [hext] at he
            refine Or.inr ?_
            rw [← Option.some_inj.1 he]
            exact List.mem_singleton_self tok
    · by_cases htk : t = tok
      · subst htk
        rw [hmFind_upsert_self] at hb
        cases hOld : hmFind t m with
        | none =>
          rw [hOld] at hb
          obtain rfl : (mkBoard cid p t r) = b := Option.some_inj.1 hb
          refine ⟨rfl, ⟨r, by simp, hext, rfl⟩, fun r2 hr2 he2 => ?_⟩
          rcases List.mem_append.1 hr2 with hr2 | hr2
          · exfalso
            have htm : t ∈ m.map (·.1) := (hkeys t).2 ⟨r2, hr2, he2⟩
            obtain ⟨kb, hkb, hkb1⟩ := List.mem_map.1 htm
            have hfk := hmFind_of_mem hnd hkb
            rw [hkb1, hOld] at hfk
            cases hfk
          · obtain rfl : r2 = r := by simpa using hr2
            exact le_refl _
        | some e =>
          rw [hOld] at hb
          have hbv : (if e.timestamp < (mkBoard cid p t r).timestamp
              then mkBoard cid p t r else e) = b := Option.some_inj.1 hb
          obtain ⟨hetok, ⟨r', hr', he', hbe'⟩, hemax⟩ := hfind t e hOld
          by_cases hlt : e.timestamp < (mkBoard cid p t r).timestamp
          · rw [if_pos hlt] at hbv
            obtain rfl := hbv
            refine ⟨rfl, ⟨r, by simp, hext, rfl⟩, fun r2 hr2 he2 => ?_⟩
            rcases List.mem_append.1 hr2 with hr2 | hr2
            · exact le_of_lt (lt_of_le_of_lt (hemax r2 hr2 he2) hlt)
            · obtain rfl : r2 = r := by simpa using hr2
              exact le_refl _
          · rw [if_neg hlt] at hbv
            obtain rfl := hbv
            refine ⟨hetok, ⟨r', by simp [hr'], he', hbe'⟩, fun r2 hr2 he2 => ?_⟩
            rcases List.mem_append.1 hr2 with hr2 | hr2
            · exact hemax r2 hr2 he2
            · obtain rfl : r2 = r := by simpa using hr2
              exact le_of_not_lt hlt
      · rw [hmFind_upsert_other _ _ _ _ htk] at hb
        obtain ⟨htok, ⟨r', hr', he, hbe⟩, hmax⟩ := hfind t b hb
        refine ⟨htok, ⟨r', by simp [hr'], he, hbe⟩, fun r2 hr2 he2 => ?_⟩
        rcases List.mem_append.1 hr2 with hr2 | hr2
        · exact hmax r2 hr2 he2
        · obtain rfl : r2 = r := by simpa using hr2
          rw [hext] at he2
          exact absurd (Option.some_inj.1 he2) (fun hh => htk hh.symm)

theorem dedupInv_fold (cid : Str) (p : AtsProvider) :
    ∀ (records : List CdxRecord) (seen : List CdxRecord)
      (m : List (Str × DiscoveredBoard)),
      DedupInv cid p seen m →
      DedupInv cid p (seen ++ records) (records.foldl (dedupStep cid p) m)
  | [], seen, m, h => by simpa using h
  | r :: rest, seen, m, h => by
    have hstep := dedupInv_step cid p seen m r h
    have := dedupInv_fold cid p rest (seen ++ [r]) (dedupStep cid p m r) hstep
    simpa [List.append_assoc] using this

theorem dedupFold_inv (cid : Str) (p : AtsProvider) (records : List CdxRecord) :
    DedupInv cid p records (dedupFold cid p records) := by
  have := dedupInv_fold cid p records [] [] (dedupInv_nil cid p)
  simpa [dedupFold] using this

theorem values_filter_token (m : List (Str × DiscoveredBoard))
    (hnd : (m.map (·.1)).Nodup) (htok : ∀ kb ∈ m, kb.2.token = kb.1) (t : Str) :
    ((m.map (·.2)).filter (fun b => b.token = t)).length
      = if t ∈ m.map (·.1) then 1 else 0 := by
  induction m with
  | nil => simp
  | cons hd rest ih =>
    obtain ⟨k, e⟩ := hd
    simp only [List.map_cons, List.nodup_cons] at hnd
    have hek : e.token = k := htok (k, e) (List.mem_cons_self _ _)
    have ihr := ih hnd.2 (fun kb hkb => htok kb (List.mem_cons_of_mem _ hkb))
    by_cases hkt : k = t
    · subst hkt
      have hrest : ((rest.map (·.2)).filter (fun b => b.token = k)).length = 0 := by
        rw [ihr, if_neg hnd.1]
      rw [List.map_cons, List.map_cons, List.filter_cons,
        if_pos (by simp [hek]), if_pos (List.mem_cons_self _ _),
        List.length_cons, hrest]
    · rw [List.map_cons, List.map_cons, List.filter_cons,
        if_neg (by simp [hek, hkt]), ihr]
      by_cases hmem : t ∈ rest.map (·.1)
      · rw [if_pos hmem, if_pos (List.mem_cons_of_mem _ hmem)]
      · rw [if_neg hmem, if_neg ?_]
        rw [List.mem_cons]
        rintro (h | h)
        · exact hkt h.symm
        · exact hmem h

theorem collect_filter_len (cid : Str) (p : AtsProvider) (t : Str) :
    ∀ (pages : List (List CdxRecord)) (acc : List DiscoveredBoard),
      ((pages.foldl (fun acc recs => acc ++ fetchCdxBoards cid p recs) acc).filter
          (fun b => b.token = t)).length
        = (acc.filter (fun b => b.token = t)).length
          + (pages.map (fun recs =>
              ((fetchCdxBoards cid p recs).filter (fun b => b.token = t)).length)).sum
  | [], acc => by simp
  | pg :: rest, acc => by
    have := collect_filter_len cid p t rest (acc ++ fetchCdxBoards cid p pg)
    simp only [List.foldl_cons, this, List.map_cons, List.sum_cons, List.filter_append,
      List.length_append]
    omega

/-- C6: among all parsed records of one CDX page that extract to the same
token (for the page's provider), exactly one `DiscoveredBoard` survives
`fetch_cdx_page`'s result; it is derived from a record of that token whose
timestamp is lexicographically maximal; and the per-token dedup is applied
within a single page only — concatenating pages sums their independent
per-page counts. -/
theorem c6_cdx_dedup (cid : Str) (p : AtsProvider) (records : List CdxRecord) (t : Str) :
    (((fetchCdxBoards cid p records).filter (fun b => b.token = t)).length
      = if ∃ r ∈ records, extractBoardToken r.url p = some t then 1 else 0)
    ∧ (∀ b ∈ fetchCdxBoards cid p records,
        (∃ r ∈ records, extractBoardToken r.url p = some b.token ∧ b = mkBoard cid p b.token r)
        ∧ (∀ r ∈ records, extractBoardToken r.url p = some b.token → r.timestamp ≤ b.timestamp))
    ∧ (∀ pages : List (List CdxRecord),
        ((collectPages cid p pages).filter (fun b => b.token = t)).length
          = (pages.map (fun recs =>
              ((fetchCdxBoards cid p recs).filter (fun b => b.token = t)).length)).sum) := by
  obtain ⟨hnd, hkeys, hfind⟩ := dedupFold_inv cid p records
  refine ⟨?_, fun b hb => ?_, fun pages => ?_⟩
  · have htok : ∀ kb ∈ dedupFold cid p records, kb.2.token = kb.1 := by
      intro kb hkb
      exact (hfind kb.1 kb.2 (hmFind_of_mem hnd hkb)).1
    rw [fetchCdxBoards, values_filter_token _ hnd htok t]
    by_cases hex : ∃ r ∈ records, extractBoardToken r.url p = some t
    · rw [if_pos ((hkeys t).2 hex), if_pos hex]
    · rw [if_neg (fun hmem => hex ((hkeys t).1 hmem)), if_neg hex]
  · obtain ⟨k, hk⟩ := (mem_values_iff_find hnd b).1 hb
    obtain ⟨htokb, hex, hmax⟩ := hfind k b hk
    subst htokb
    exact ⟨hex, hmax⟩
  · have := collect_filter_len cid p t pages []
    simpa [collectPages] using this

/-- Two records of the same board token `acme`; `fetch_cdx_page` keeps the
one with the larger capture timestamp. -/
def cdxRecA : CdxRecord where
  url := "https://jobs.ashbyhq.com/acme".toList
  timestamp := "20250101000000".toList
  status := none
  mime := none
  mimeDetected := none
  filename := none
  offset := none
  length := none

def cdxRecB : CdxRecord :=
  { cdxRecA with timestamp := "20250202000000".toList }

/-- Concrete instance of `c6_cdx_dedup`: of two same-token records the
later capture survives, and it bounds both timestamps. -/
theorem c6_cdx_dedup_witness :
    (∃ r ∈ [cdxRecA, cdxRecB],
        extractBoardToken r.url .ashby
            = some (mkBoard "cc".toList .ashby "acme".toList cdxRecB).token
        ∧ mkBoard "cc".toList .ashby "acme".toList cdxRecB
            = mkBoard "cc".toList .ashby
                (mkBoard "cc".toList .ashby "acme".toList cdxRecB).token r)
    ∧ (∀ r ∈ [cdxRecA, cdxRecB],
        extractBoardToken r.url .ashby
            = some (mkBoard "cc".toList .ashby "acme".toList cdxRecB).token
        → r.timestamp ≤ (mkBoard "cc".toList .ashby "acme".toList cdxRecB).timestamp) :=
  (c6_cdx_dedup "cc".toList .ashby [cdxRecA, cdxRecB] "acme".toList).2.1
    (mkBoard "cc".toList .ashby "acme".toList cdxRecB) (by decide)

-- ═══════════════════════════════════════════════════════════════════════
-- Provider posting / board-response models (src/ashby.rs, greenhouse.rs,
-- workable.rs, lever.rs)
-- ═══════════════════════════════════════════════════════════════════════

/-- `AshbyApiSecondaryLocation`; the inner `postal_address` JSON value is
carried as its (deterministic, injective) serde rendering. -/
structure AshbySecondaryLoc where
  location : Option Str
  address : Option (Option Str)
deriving DecidableEq, Repr

/-- `AshbyJobPosting` (src/ashby.rs).  The free-form `serde_json::Value`
fields (`compensation`, `address`) are carried as their serde renderings,
which is what the upsert stores. -/
structure AshbyJobPosting where
  id : Str
  title : Str
  location : Option Str
  locationName : Option Str
  descriptionHtml : Option Str
  descriptionPlain : Option Str
  jobUrl : Option Str
  applyUrl : Option Str
  isRemote : Option Bool
  isListed : Option Bool
  employmentType : Option Str
  department : Option Str
  team : Option Str
  publishedAt : Option Str
  secondaryLocations : Option (List AshbySecondaryLoc)
  compensation : Option Str
  address : Option Str
deriving DecidableEq, Repr

/-- `AshbyJobBoardResponse` (src/ashby.rs). -/
structure AshbyJobBoardResponse where
  title : Option Str
  jobs : List AshbyJobPosting
deriving DecidableEq, Repr

/-- `GreenhouseJob` (src/greenhouse.rs).  `location` models the nested
`GreenhouseLocation { name }`; the `Vec<…>` metadata fields are carried
as their serde renderings, which is what the upsert stores. -/
structure GreenhouseJob where
  id : Nat
  internalJobId : Option Nat
  title : Str
  absoluteUrl : Option Str
  updatedAt : Option Str
  requisitionId : Option Str
  content : Option Str
  location : Option (Option Str)
  departments : Option Str
  offices : Option Str
  metadata : Option Str
  dataCompliance : Option Str
deriving DecidableEq, Repr

/-- `GreenhouseBoardResponse` (src/greenhouse.rs). -/
structure GreenhouseBoardResponse where
  name : Option Str
  jobs : List GreenhouseJob
deriving DecidableEq, Repr

/-- `WorkableLocation` (src/workable.rs). -/
structure WorkableLocation where
  country : Option Str
  countryCode : Option Str
  city : Option Str
  region : Option Str
  hidden : Option Bool
deriving DecidableEq, Repr

/-- `WorkableJob` (src/workable.rs). -/
structure WorkableJob where
  shortcode : Option Str
  title : Str
  code : Option Str
  employmentType : Option Str
  telecommuting : Option Bool
  department : Option Str
  url : Option Str
  applicationUrl : Option Str
  publishedOn : Option Str
  createdAt : Option Str
  country : Option Str
  city : Option Str
  state : Option Str
  education : Option Str
  experience : Option Str
  function : Option Str
  industry : Option Str
  locations : Option (List WorkableLocation)
deriving DecidableEq, Repr

/-- `WorkableBoardResponse` (src/workable.rs). -/
structure WorkableBoardResponse where
  name : Option Str
  description : Option Str
  jobs : List WorkableJob
deriving DecidableEq, Repr

/-- `LeverPosting` (src/lever.rs), restricted to the fields the sync path
reads (`hosted_url` drives the upsert key; the fetcher never inspects
postings). -/
structure LeverPosting where
  id : Option Str
  text : Option Str
  hostedUrl : Option Str
  applyUrl : Option Str
  workplaceType : Option Str
  createdAt : Option Nat
deriving DecidableEq, Repr

-- ═══════════════════════════════════════════════════════════════════════
-- Board fetchers: HTTP status handling (src/ashby.rs `fetch_ashby_board_jobs`,
-- src/greenhouse.rs `fetch_greenhouse_board_jobs`,
-- src/workable.rs `fetch_workable_board_jobs`, src/lever.rs `fetch_lever_board_jobs`)
-- ═══════════════════════════════════════════════════════════════════════

/-- The single-quote character of the Rust `'{}'` format strings. -/
def sqC : Char := Char.ofNat 39

/-- `format!("Ashby API returned {} for board '{}'", status, slug)`. -/
def ashbyErrMsg (slug : Str) (status : Nat) : Str :=
  "Ashby API returned ".toList ++ (toString status).toList
    ++ " for board ".toList ++ sqC :: slug ++ [sqC]

/-- `format!("Greenhouse API returned {} for board '{}'", status, token)`. -/
def greenhouseErrMsg (token : Str) (status : Nat) : Str :=
  "Greenhouse API returned ".toList ++ (toString status).toList
    ++ " for board ".toList ++ sqC :: token ++ [sqC]

/-- `format!("Workable API returned {} for account '{}'", status, shortcode)`. -/
def workableErrMsg (shortcode : Str) (status : Nat) : Str :=
  "Workable API returned ".toList ++ (toString status).toList
    ++ " for account ".toList ++ sqC :: shortcode ++ [sqC]

/-- `format!("Lever API returned {} for site '{}'", status, site)`. -/
def leverErrMsg (site : Str) (status : Nat) : Str :=
  "Lever API returned ".toList ++ (toString status).toList
    ++ " for site ".toList ++ sqC :: site ++ [sqC]

/-- Status handling of `fetch_ashby_board_jobs`: 404 → empty board (not an
error); other non-200 → error; 200 → the body parse outcome `body`. -/
def ashbyFetchStep (slug : Str) (status : Nat)
    (body : Except Str AshbyJobBoardResponse) : Except Str AshbyJobBoardResponse :=
  if status = 404 then .ok { title := none, jobs := [] }
  else if status ≠ 200 then .error (ashbyErrMsg slug status)
  else body

/-- Status handling of `fetch_greenhouse_board_jobs`. -/
def greenhouseFetchStep (token : Str) (status : Nat)
    (body : Except Str GreenhouseBoardResponse) : Except Str GreenhouseBoardResponse :=
  if status = 404 then .ok { name := none, jobs := [] }
  else if status ≠ 200 then .error (greenhouseErrMsg token status)
  else body

/-- Status handling of `fetch_workable_board_jobs`. -/
def workableFetchStep (shortcode : Str) (status : Nat)
    (body : Except Str WorkableBoardResponse) : Except Str WorkableBoardResponse :=
  if status = 404 then .ok { name := none, description := none, jobs := [] }
  else if status ≠ 200 then .error (workableErrMsg shortcode status)
  else body

/-- Status handling of `fetch_lever_board_jobs`. -/
def leverFetchStep (site : Str) (status : Nat)
    (body : Except Str (List LeverPosting)) : Except Str (List LeverPosting) :=
  if status = 404 then .ok []
  else if status ≠ 200 then .error (leverErrMsg site status)
  else body

/-- C8: for every provider board fetcher and every token, an HTTP 404
yields a successful empty board response (no postings, no error), and any
other non-200 status yields the error naming the provider, token and
status. -/
theorem c8_fetch_status (tok : Str) (status : Nat)
    (ba : Except Str AshbyJobBoardResponse) (bg : Except Str GreenhouseBoardResponse)
    (bw : Except Str WorkableBoardResponse) (bl : Except Str (List LeverPosting)) :
    (status = 404 →
      ashbyFetchStep tok status ba = .ok { title := none, jobs := [] }
      ∧ greenhouseFetchStep tok status bg = .ok { name := none, jobs := [] }
      ∧ workableFetchStep tok status bw = .ok { name := none, description := none, jobs := [] }
      ∧ leverFetchStep tok status bl = .ok [])
    ∧ (status ≠ 404 → status ≠ 200 →
      ashbyFetchStep tok status ba = .error (ashbyErrMsg tok status)
      ∧ greenhouseFetchStep tok status bg = .error (greenhouseErrMsg tok status)
      ∧ workableFetchStep tok status bw = .error (workableErrMsg tok status)
      ∧ leverFetchStep tok status bl = .error (leverErrMsg tok status)) := by
  constructor
  · intro h404
    refine ⟨?_, ?_, ?_, ?_⟩ <;>
      simp [ashbyFetchStep, greenhouseFetchStep, workableFetchStep, leverFetchStep, h404]
  · intro h404 h200
    refine ⟨?_, ?_, ?_, ?_⟩ <;>
      simp [ashbyFetchStep, greenhouseFetchStep, workableFetchStep, leverFetchStep,
        h404, h200]

/-- Concrete instances of `c8_fetch_status` at statuses 404 and 500. -/
theorem c8_fetch_status_witness :
    ashbyFetchStep "acme".toList 404 (.error "unused".toList)
        = .ok { title := none, jobs := [] }
    ∧ ashbyFetchStep "acme".toList 500 (.error "unused".toList)
        = .error (ashbyErrMsg "acme".toList 500) :=
  ⟨((c8_fetch_status "acme".toList 404 (.error "unused".toList) (.error "unused".toList)
      (.error "unused".toList) (.error "unused".toList)).1 rfl).1,
   ((c8_fetch_status "acme".toList 500 (.error "unused".toList) (.error "unused".toList)
      (.error "unused".toList) (.error "unused".toList)).2 (by decide) (by decide)).1⟩

-- ═══════════════════════════════════════════════════════════════════════
-- Company-name derivation (src/ashby.rs 99-112, greenhouse.rs 118-131,
-- db.rs 149-168)
-- ═══════════════════════════════════════════════════════════════════════

/-- `slug.split(|c| c == '-' || c == '_')`: Rust `split` keeps empty
segments, and an empty input yields one empty segment. -/
def splitDashUnder : Str → List Str
  | [] => [[]]
  | c :: rest =>
    if c = '-' ∨ c = '_' then [] :: splitDashUnder rest
    else
      match splitDashUnder rest with
      | [] => [[c]]
      | s :: ss => (c :: s) :: ss

/-- Uppercase the first character (`c.to_uppercase().to_string() + rest`;
the multi-char expansions of `to_uppercase` do not occur for ASCII). -/
def capitalizeWord : Str → Str
  | [] => []
  | c :: cs => c.toUpper :: cs

/-- `Vec::join(" ")`. -/
def joinSpace : List Str → Str
  | [] => []
  | [w] => w
  | w :: ws => w ++ ' ' :: joinSpace ws

/-- The title-case fallback shared by the upsert paths:
`slug.split(-|_).map(capitalize).collect().join(" ")`. -/
def titleCaseToken (t : Str) : Str :=
  joinSpace ((splitDashUnder t).map capitalizeWord)

/-- Company-name derivation in the job upserters (`upsert_ashby_jobs_to_d1`,
`upsert_greenhouse_jobs_to_d1`): the board title when non-empty, else the
title-cased token.  There is no all-digits check on this path. -/
def jobUpsertCompanyName (slug boardTitle : Str) : Str :=
  if boardTitle = [] then titleCaseToken slug else boardTitle

/-- Name derivation in `upsert_boards` (src/db.rs): title-case the token,
then blank the name when the token is all ASCII digits. -/
def upsertBoardsName (token : Str) : Str :=
  let name := titleCaseToken token
  if token.all (fun c => c.isDigit) then [] else name

-- ═══════════════════════════════════════════════════════════════════════
-- SQL value helpers (SQLite NULL is `none`)
-- ═══════════════════════════════════════════════════════════════════════

/-- `NULLIF(x, '')`. -/
def nullif (s : Str) : Option Str := if s = [] then none else some s

/-- Two-argument `COALESCE`. -/
def sqlCoalesce {α : Type} : Option α → Option α → Option α
  | some v, _ => some v
  | none, b => b

theorem sqlCoalesce_self {α : Type} (a : Option α) : sqlCoalesce a a = a := by
  cases a <;> rfl

-- ═══════════════════════════════════════════════════════════════════════
-- Ashby job upsert (src/ashby.rs `upsert_ashby_jobs_to_d1`)
-- ═══════════════════════════════════════════════════════════════════════

/-- The JSON object bound as `?21 categories`, as structured data (the
serde rendering is deterministic and injective). -/
structure AshbyCategories where
  department : Option Str
  team : Option Str
  location : Option Str
  allLocations : List Str
deriving DecidableEq, Repr

/-- `job.job_url.as_deref().or(job.apply_url.as_deref()).unwrap_or("")`. -/
def ashbyResolvedUrl (j : AshbyJobPosting) : Str :=
  (j.jobUrl.or j.applyUrl).getD []

/-- `all_locations`: the optional primary location chained with each
secondary location's present name. -/
def ashbyAllLocations (j : AshbyJobPosting) : List Str :=
  (match j.location with
   | some l => [l]
   | none => [])
  ++ (j.secondaryLocations.getD []).filterMap (·.location)

/-- The 21 bound parameters of the Ashby `JOB_SQL` statement.  Fields
bound from a `map(render).unwrap_or_default()` JSON rendering are kept as
the underlying optional value (the rendering of a present value is never
the empty string, so `''` ≡ `none`). -/
structure AshbyParams where
  externalId : Str
  sourceId : Str
  companyKey : Str
  companyName : Str
  title : Str
  url : Str
  description : Str
  location : Str
  publishedAt : Str
  workplaceType : Str
  department : Str
  team : Str
  employmentType : Str
  isRemote : Option Nat
  isListed : Option Nat
  jobUrl : Str
  applyUrl : Str
  secondaryLocs : Option (List AshbySecondaryLoc)
  compensation : Option Str
  address : Option Str
  categories : AshbyCategories
deriving DecidableEq, Repr

/-- The per-posting statement builder of `upsert_ashby_jobs_to_d1`:
postings with an empty resolved URL are dropped (`continue`), all others
yield one bound statement. -/
def mkAshbyParams (slug companyName : Str) (j : AshbyJobPosting) :
    Option AshbyParams :=
  let url := ashbyResolvedUrl j
  if url = [] then none
  else some {
    externalId := j.id
    sourceId := slug
    companyKey := slug
    companyName := companyName
    title := j.title
    url := url
    description := (j.descriptionHtml.or j.descriptionPlain).getD []
    location := (j.locationName.or j.location).getD []
    publishedAt := j.publishedAt.getD []
    workplaceType :=
      match j.isRemote with
      | some true => "remote".toList
      | some false => "office".toList
      | none => []
    department := j.department.getD []
    team := j.team.getD []
    employmentType := j.employmentType.getD []
    isRemote := j.isRemote.map (fun v => if v then 1 else 0)
    isListed := j.isListed.map (fun v => if v then 1 else 0)
    jobUrl := j.jobUrl.getD []
    applyUrl := j.applyUrl.getD []
    secondaryLocs := j.secondaryLocations
    compensation := j.compensation
    address := j.address
    categories :=
      { department := j.department
        team := j.team
        location := j.location
        allLocations := ashbyAllLocations j } }

/-- One `jobs` row as written by the Ashby statement. -/
structure AshbyRow where
  externalId : Str
  sourceKind : Str
  sourceId : Option Str
  companyKey : Option Str
  companyName : Option Str
  title : Option Str
  url : Option Str
  description : Option Str
  location : Option Str
  postedAt : Option Str
  workplaceType : Option Str
  ashbyDepartment : Option Str
  ashbyTeam : Option Str
  ashbyEmploymentType : Option Str
  ashbyIsRemote : Option Nat
  ashbyIsListed : Option Nat
  ashbyPublishedAt : Option Str
  ashbyJobUrl : Option Str
  ashbyApplyUrl : Option Str
  ashbySecondaryLocations : Option (List AshbySecondaryLoc)
  ashbyCompensation : Option Str
  ashbyAddress : Option Str
  categories : Option AshbyCategories
  atsCreatedAt : Option Str
  firstPublished : Option Str
  updatedAt : Option Str
deriving DecidableEq, Repr

/-- The `VALUES (…)` branch of the Ashby `JOB_SQL` (`now` stands for
`datetime('now')`). -/
def ashbyInsertRow (p : AshbyParams) (now : Str) : AshbyRow where
  externalId := p.externalId
  sourceKind := "ashby".toList
  sourceId := some p.sourceId
  companyKey := some p.companyKey
  companyName := some p.companyName
  title := some p.title
  url := some p.url
  description := nullif p.description
  location := nullif p.location
  postedAt := sqlCoalesce (nullif p.publishedAt) (some now)
  workplaceType := nullif p.workplaceType
  ashbyDepartment := nullif p.department
  ashbyTeam := nullif p.team
  ashbyEmploymentType := nullif p.employmentType
  ashbyIsRemote := p.isRemote
  ashbyIsListed := p.isListed
  ashbyPublishedAt := nullif p.publishedAt
  ashbyJobUrl := nullif p.jobUrl
  ashbyApplyUrl := nullif p.applyUrl
  ashbySecondaryLocations := p.secondaryLocs
  ashbyCompensation := p.compensation
  ashbyAddress := p.address
  categories := some p.categories
  atsCreatedAt := nullif p.publishedAt
  firstPublished := nullif p.publishedAt
  updatedAt := some now

/-- The `ON CONFLICT(external_id) DO UPDATE SET …` branch of the Ashby
`JOB_SQL`; `excluded.x` is the value the `VALUES` branch would have
inserted at time `now`. -/
def ashbyUpdateRow (old : AshbyRow) (p : AshbyParams) (now : Str) : AshbyRow where
  externalId := old.externalId
  sourceKind := old.sourceKind
  sourceId := some p.sourceId
  companyKey := some p.companyKey
  companyName := sqlCoalesce (some p.companyName) old.companyName
  title := some p.title
  url := some p.url
  description := sqlCoalesce (nullif p.description) old.description
  location := sqlCoalesce (nullif p.location) old.location
  postedAt := sqlCoalesce (sqlCoalesce (nullif p.publishedAt) (some now)) old.postedAt
  workplaceType := sqlCoalesce (nullif p.workplaceType) old.workplaceType
  ashbyDepartment := nullif p.department
  ashbyTeam := nullif p.team
  ashbyEmploymentType := nullif p.employmentType
  ashbyIsRemote := p.isRemote
  ashbyIsListed := p.isListed
  ashbyPublishedAt := nullif p.publishedAt
  ashbyJobUrl := nullif p.jobUrl
  ashbyApplyUrl := nullif p.applyUrl
  ashbySecondaryLocations := p.secondaryLocs
  ashbyCompensation := p.compensation
  ashbyAddress := p.address
  categories := some p.categories
  atsCreatedAt := nullif p.publishedAt
  firstPublished := sqlCoalesce (nullif p.publishedAt) old.firstPublished
  updatedAt := some now

/-- Executing one bound Ashby statement against the `jobs` table (a map
from `external_id` to row; the unique index on `external_id` makes the
`ON CONFLICT` branch fire exactly on an existing key). -/
def applyAshbyStmt (now : Str) (tbl : Str → Option AshbyRow) (p : AshbyParams) :
    Str → Option AshbyRow :=
  fun k =>
    if k = p.externalId then
      some
        (match tbl p.externalId with
         | none => ashbyInsertRow p now
         | some old => ashbyUpdateRow old p now)
    else tbl k

/-- The bound job statements emitted for one batch. -/
def ashbyJobStmts (slug boardTitle : Str) (jobs : List AshbyJobPosting) :
    List AshbyParams :=
  jobs.filterMap (mkAshbyParams slug (jobUpsertCompanyName slug boardTitle))

/-- `upsert_ashby_jobs_to_d1`: run every emitted statement and return the
count of postings for which a statement was pushed. -/
def upsertAshbyJobs (tbl : Str → Option AshbyRow) (jobs : List AshbyJobPosting)
    (slug boardTitle now : Str) : (Str → Option AshbyRow) × Nat :=
  let stmts := ashbyJobStmts slug boardTitle jobs
  (stmts.foldl (applyAshbyStmt now) tbl, stmts.length)

-- ═══════════════════════════════════════════════════════════════════════
-- Greenhouse job upsert (src/greenhouse.rs `upsert_greenhouse_jobs_to_d1`)
-- ═══════════════════════════════════════════════════════════════════════

/-- `job.absolute_url.as_deref().unwrap_or("")`. -/
def greenhouseResolvedUrl (j : GreenhouseJob) : Str :=
  j.absoluteUrl.getD []

/-- The 16 bound parameters of the Greenhouse `JOB_SQL` statement. -/
structure GreenhouseParams where
  externalId : Str
  sourceId : Str
  companyKey : Str
  companyName : Str
  title : Str
  url : Str
  description : Str
  location : Str
  updatedAt : Str
  internalJobId : Option Nat
  requisitionId : Str
  departments : Option Str
  offices : Option Str
  metadata : Option Str
  dataCompliance : Option Str
deriving DecidableEq, Repr

/-- The per-posting statement builder of `upsert_greenhouse_jobs_to_d1`:
postings with no `absolute_url` are dropped; the key is the URL with the
query string stripped (`url.split('?').next()`). -/
def mkGreenhouseParams (token companyName : Str) (j : GreenhouseJob) :
    Option GreenhouseParams :=
  let url := greenhouseResolvedUrl j
  if url = [] then none
  else some {
    externalId := splitNext '?' url
    sourceId := token
    companyKey := token
    companyName := companyName
    title := j.title
    url := url
    description := j.content.getD []
    location := (j.location.join).getD []
    updatedAt := j.updatedAt.getD []
    internalJobId := j.internalJobId
    requisitionId := j.requisitionId.getD []
    departments := j.departments
    offices := j.offices
    metadata := j.metadata
    dataCompliance := j.dataCompliance }

/-- One `jobs` row as written by the Greenhouse statement. -/
structure GreenhouseRow where
  externalId : Str
  sourceKind : Str
  sourceId : Option Str
  companyKey : Option Str
  companyName : Option Str
  title : Option Str
  url : Option Str
  description : Option Str
  location : Option Str
  postedAt : Option Str
  absoluteUrl : Option Str
  internalJobId : Option Nat
  requisitionId : Option Str
  departments : Option Str
  offices : Option Str
  metadata : Option Str
  dataCompliance : Option Str
  atsCreatedAt : Option Str
  updatedAt : Option Str
deriving DecidableEq, Repr

/-- The `VALUES (…)` branch of the Greenhouse `JOB_SQL`. -/
def greenhouseInsertRow (p : GreenhouseParams) (now : Str) : GreenhouseRow where
  externalId := p.externalId
  sourceKind := "greenhouse".toList
  sourceId := some p.sourceId
  companyKey := some p.companyKey
  companyName := some p.companyName
  title := some p.title
  url := some p.url
  description := nullif p.description
  location := nullif p.location
  postedAt := sqlCoalesce (nullif p.updatedAt) (some now)
  absoluteUrl := nullif p.url
  internalJobId := p.internalJobId
  requisitionId := nullif p.requisitionId
  departments := p.departments
  offices := p.offices
  metadata := p.metadata
  dataCompliance := p.dataCompliance
  atsCreatedAt := nullif p.updatedAt
  updatedAt := some now

/-- The `ON CONFLICT(external_id) DO UPDATE SET …` branch of the
Greenhouse `JOB_SQL`. -/
def greenhouseUpdateRow (old : GreenhouseRow) (p : GreenhouseParams) (now : Str) :
    GreenhouseRow where
  externalId := old.externalId
  sourceKind := old.sourceKind
  sourceId := some p.sourceId
  companyKey := some p.companyKey
  companyName := sqlCoalesce (some p.companyName) old.companyName
  title := some p.title
  url := some p.url
  description := sqlCoalesce (nullif p.description) old.description
  location := sqlCoalesce (nullif p.location) old.location
  postedAt := sqlCoalesce (sqlCoalesce (nullif p.updatedAt) (some now)) old.postedAt
  absoluteUrl := sqlCoalesce (nullif p.url) old.absoluteUrl
  internalJobId := sqlCoalesce p.internalJobId old.internalJobId
  requisitionId := sqlCoalesce (nullif p.requisitionId) old.requisitionId
  departments := p.departments
  offices := p.offices
  metadata := p.metadata
  dataCompliance := p.dataCompliance
  atsCreatedAt := nullif p.updatedAt
  updatedAt := some now

/-- Executing one bound Greenhouse statement against the `jobs` table. -/
def applyGreenhouseStmt (now : Str) (tbl : Str → Option GreenhouseRow)
    (p : GreenhouseParams) : Str → Option GreenhouseRow :=
  fun k =>
    if k = p.externalId then
      some
        (match tbl p.externalId with
         | none => greenhouseInsertRow p now
         | some old => greenhouseUpdateRow old p now)
    else tbl k

/-- The bound job statements emitted for one batch. -/
def greenhouseJobStmts (token boardName : Str) (jobs : List GreenhouseJob) :
    List GreenhouseParams :=
  jobs.filterMap (mkGreenhouseParams token (jobUpsertCompanyName token boardName))

/-- `upsert_greenhouse_jobs_to_d1`: run every emitted statement and return
the count of postings for which a statement was pushed. -/
def upsertGreenhouseJobs (tbl : Str → Option GreenhouseRow)
    (jobs : List GreenhouseJob) (token boardName now : Str) :
    (Str → Option GreenhouseRow) × Nat :=
  let stmts := greenhouseJobStmts token boardName jobs
  (stmts.foldl (applyGreenhouseStmt now) tbl, stmts.length)

-- ═══════════════════════════════════════════════════════════════════════
-- Workable upsert key (src/workable.rs 161-167)
-- ═══════════════════════════════════════════════════════════════════════

/-- `job.url.as_deref().unwrap_or("")`. -/
def workableResolvedUrl (j : WorkableJob) : Str :=
  j.url.getD []

/-- `external_id = url.to_string()` of the kept Workable postings
(postings with an empty URL are dropped before this line). -/
def workableExternalId (j : WorkableJob) : Option Str :=
  let url := workableResolvedUrl j
  if url = [] then none else some url

-- ═══════════════════════════════════════════════════════════════════════
-- C2: external_id vs canonical posting URL
-- ═══════════════════════════════════════════════════════════════════════

theorem mkAshbyParams_eq (slug cn : Str) (aj : AshbyJobPosting) (pa : AshbyParams)
    (ha : mkAshbyParams slug cn aj = some pa) :
    pa.externalId = aj.id ∧ pa.url = ashbyResolvedUrl aj := by
  by_cases h : ashbyResolvedUrl aj = []
  · simp [mkAshbyParams, h] at ha
  · simp only [mkAshbyParams, if_neg h] at ha
    obtain rfl := Option.some_inj.1 ha
    exact ⟨rfl, rfl⟩

theorem mkGreenhouseParams_eq (token cn : Str) (gj : GreenhouseJob)
    (pg : GreenhouseParams) (hg : mkGreenhouseParams token cn gj = some pg) :
    pg.externalId = splitNext '?' (greenhouseResolvedUrl gj)
    ∧ pg.url = greenhouseResolvedUrl gj := by
  by_cases h : greenhouseResolvedUrl gj = []
  · simp [mkGreenhouseParams, h] at hg
  · simp only [mkGreenhouseParams, if_neg h] at hg
    obtain rfl := Option.some_inj.1 hg
    exact ⟨rfl, rfl⟩

/-- A concrete Ashby posting with a job URL: the posting id `job-1`,
not the URL, becomes `external_id`, falsifying the claim that all three
upserters key jobs by the canonical posting URL. -/
def ashbyJobUrlOnly : AshbyJobPosting where
  id := "job-1".toList
  title := "Engineer".toList
  location := none
  locationName := none
  descriptionHtml := none
  descriptionPlain := none
  jobUrl := some "https://jobs.ashbyhq.com/acme/job-1".toList
  applyUrl := none
  isRemote := none
  isListed := none
  employmentType := none
  department := none
  team := none
  publishedAt := none
  secondaryLocations := none
  compensation := none
  address := none

/-- C2 counterexample: the Ashby upserter binds `job.id` (`job-1`) as
`external_id` while the resolved posting URL is the Ashby job URL, so the
stored key is not the canonical posting URL. -/
theorem c2_counterexample :
    (mkAshbyParams "acme".toList (jobUpsertCompanyName "acme".toList [])
        ashbyJobUrlOnly).map (·.externalId) = some "job-1".toList
    ∧ ashbyResolvedUrl ashbyJobUrlOnly
        = "https://jobs.ashbyhq.com/acme/job-1".toList
    ∧ ("job-1".toList : Str) ≠ "https://jobs.ashbyhq.com/acme/job-1".toList := by
  decide

/-- C2 (amended): Greenhouse keys by the resolved URL with the query
string stripped and Workable keys by the resolved URL, as claimed; the
Ashby upserter instead keys by the posting's ATS id. -/
theorem c2_external_id (slug cn token cn2 : Str) (aj : AshbyJobPosting)
    (gj : GreenhouseJob) (wj : WorkableJob) (pa : AshbyParams)
    (pg : GreenhouseParams)
    (ha : mkAshbyParams slug cn aj = some pa)
    (hg : mkGreenhouseParams token cn2 gj = some pg) :
    pa.externalId = aj.id
    ∧ pg.externalId = splitNext '?' (greenhouseResolvedUrl gj)
    ∧ pg.url = greenhouseResolvedUrl gj
    ∧ (∀ u, workableExternalId wj = some u → u = workableResolvedUrl wj) := by
  obtain ⟨h1, _⟩ := mkAshbyParams_eq slug cn aj pa ha
  obtain ⟨h2, h3⟩ := mkGreenhouseParams_eq token cn2 gj pg hg
  refine ⟨h1, h2, h3, fun u hu => ?_⟩
  unfold workableExternalId at hu
  by_cases h : workableResolvedUrl wj = []
  · simp [h] at hu
  · simp only [if_neg h] at hu
    exact (Option.some_inj.1 hu).symm

/-- A concrete Greenhouse posting with a query string on its URL. -/
def ghJobWithQuery : GreenhouseJob where
  id := 77
  internalJobId := none
  title := "Designer".toList
  absoluteUrl := some "https://job-boards.greenhouse.io/acme/jobs/77?gh_jid=77".toList
  updatedAt := none
  requisitionId := none
  content := none
  location := none
  departments := none
  offices := none
  metadata := none
  dataCompliance := none

/-- Concrete instance of `c2_external_id`. -/
theorem c2_external_id_witness :
    (mkAshbyParams "acme".toList "Acme".toList ashbyJobUrlOnly).map (·.externalId)
        = some ashbyJobUrlOnly.id
    ∧ (mkGreenhouseParams "acme".toList "Acme".toList ghJobWithQuery).map (·.externalId)
        = some (splitNext '?' (greenhouseResolvedUrl ghJobWithQuery)) := by
  have h := c2_external_id "acme".toList "Acme".toList "acme".toList "Acme".toList
    ashbyJobUrlOnly ghJobWithQuery
    { shortcode := none, title := [], code := none, employmentType := none,
      telecommuting := none, department := none, url := none, applicationUrl := none,
      publishedOn := none, createdAt := none, country := none, city := none,
      state := none, education := none, experience := none, function := none,
      industry := none, locations := none }
    ((mkAshbyParams "acme".toList "Acme".toList ashbyJobUrlOnly).get (by decide))
    ((mkGreenhouseParams "acme".toList "Acme".toList ghJobWithQuery).get (by decide))
    (by decide) (by decide)
  refine ⟨?_, ?_⟩
  · rw [show mkAshbyParams "acme".toList "Acme".toList ashbyJobUrlOnly
        = some ((mkAshbyParams "acme".toList "Acme".toList ashbyJobUrlOnly).get
            (by decide)) from by decide]
    rw [Option.map_some']
    exact congrArg some h.1
  · rw [show mkGreenhouseParams "acme".toList "Acme".toList ghJobWithQuery
        = some ((mkGreenhouseParams "acme".toList "Acme".toList ghJobWithQuery).get
            (by decide)) from by decide]
    rw [Option.map_some']
    exact congrArg some h.2.1

-- ═══════════════════════════════════════════════════════════════════════
-- C9: dropped postings and the returned count
-- ═══════════════════════════════════════════════════════════════════════

theorem filterMap_length_filter {α β : Type} (f : α → Option β) (p : α → Bool) :
    ∀ l : List α, (∀ a ∈ l, (f a).isSome = p a) →
      (l.filterMap f).length = (l.filter p).length
  | [], _ => rfl
  | a :: as, h => by
    have ha := h a (by simp)
    have ih := filterMap_length_filter f p as (fun x hx => h x (by simp [hx]))
    cases hfa : f a with
    | none =>
      rw [hfa] at ha
      simp only [List.filterMap_cons, hfa, List.filter_cons, ← ha]
      simpa using ih
    | some b =>
      rw [hfa] at ha
      simp only [List.filterMap_cons, hfa, List.filter_cons, ← ha]
      simpa using ih

theorem ashbyFold_not_mem (now : Str) :
    ∀ (stmts : List AshbyParams) (tbl : Str → Option AshbyRow) (k : Str),
      k ∉ stmts.map (·.externalId) →
      stmts.foldl (applyAshbyStmt now) tbl k = tbl k
  | [], _, _, _ => rfl
  | p :: rest, tbl, k, h => by
    simp only [List.map_cons, List.mem_cons] at h
    push_neg at h
    rw [List.foldl_cons, ashbyFold_not_mem now rest _ k h.2]
    simp [applyAshbyStmt, h.1]

theorem greenhouseFold_not_mem (now : Str) :
    ∀ (stmts : List GreenhouseParams) (tbl : Str → Option GreenhouseRow) (k : Str),
      k ∉ stmts.map (·.externalId) →
      stmts.foldl (applyGreenhouseStmt now) tbl k = tbl k
  | [], _, _, _ => rfl
  | p :: rest, tbl, k, h => by
    simp only [List.map_cons, List.mem_cons] at h
    push_neg at h
    rw [List.foldl_cons, greenhouseFold_not_mem now rest _ k h.2]
    simp [applyGreenhouseStmt, h.1]

theorem mkAshbyParams_isSome (slug cn : Str) (j : AshbyJobPosting) :
    (mkAshbyParams slug cn j).isSome = decide (ashbyResolvedUrl j ≠ []) := by
  by_cases h : ashbyResolvedUrl j = [] <;> simp [mkAshbyParams, h]

theorem mkGreenhouseParams_isSome (token cn : Str) (j : GreenhouseJob) :
    (mkGreenhouseParams token cn j).isSome = decide (greenhouseResolvedUrl j ≠ []) := by
  by_cases h : greenhouseResolvedUrl j = [] <;> simp [mkGreenhouseParams, h]

/-- C9: postings whose resolved canonical URL is empty are dropped — they
emit no statement and leave the `jobs` table untouched — and the value
returned by each upsert equals the number of postings for which a
statement was emitted, i.e. those with a non-empty resolved URL. -/
theorem c9_drop_and_count (slug title token name nowA nowG : Str)
    (ajobs : List AshbyJobPosting) (gjobs : List GreenhouseJob)
    (atbl : Str → Option AshbyRow) (gtbl : Str → Option GreenhouseRow)
    (kA kG : Str)
    (hkA : kA ∉ (ashbyJobStmts slug title ajobs).map (·.externalId))
    (hkG : kG ∉ (greenhouseJobStmts token name gjobs).map (·.externalId)) :
    ((upsertAshbyJobs atbl ajobs slug title nowA).2
        = (ashbyJobStmts slug title ajobs).length
      ∧ (ashbyJobStmts slug title ajobs).length
          = (ajobs.filter (fun j => ashbyResolvedUrl j ≠ [])).length
      ∧ (∀ j ∈ ajobs,
          mkAshbyParams slug (jobUpsertCompanyName slug title) j = none
            ↔ ashbyResolvedUrl j = [])
      ∧ (upsertAshbyJobs atbl ajobs slug title nowA).1 kA = atbl kA)
    ∧ ((upsertGreenhouseJobs gtbl gjobs token name nowG).2
        = (greenhouseJobStmts token name gjobs).length
      ∧ (greenhouseJobStmts token name gjobs).length
          = (gjobs.filter (fun j => greenhouseResolvedUrl j ≠ [])).length
      ∧ (∀ j ∈ gjobs,
          mkGreenhouseParams token (jobUpsertCompanyName token name) j = none
            ↔ greenhouseResolvedUrl j = [])
      ∧ (upsertGreenhouseJobs gtbl gjobs token name nowG).1 kG = gtbl kG) := by
  refine ⟨⟨rfl, ?_, fun j _ => ?_, ?_⟩, ⟨rfl, ?_, fun j _ => ?_, ?_⟩⟩
  · exact filterMap_length_filter _ _ ajobs
      (fun j _ => mkAshbyParams_isSome slug (jobUpsertCompanyName slug title) j)
  · by_cases h : ashbyResolvedUrl j = [] <;> simp [mkAshbyParams, h]
  · exact ashbyFold_not_mem nowA _ atbl kA hkA
  · exact filterMap_length_filter _ _ gjobs
      (fun j _ => mkGreenhouseParams_isSome token (jobUpsertCompanyName token name) j)
  · by_cases h : greenhouseResolvedUrl j = [] <;> simp [mkGreenhouseParams, h]
  · exact greenhouseFold_not_mem nowG _ gtbl kG hkG

/-- Concrete instance of `c9_drop_and_count`: a two-posting batch (one
posting without URL) upserts exactly one row and leaves other keys. -/
theorem c9_drop_and_count_witness :
    (upsertAshbyJobs (fun _ => none)
        [ashbyJobUrlOnly, { ashbyJobUrlOnly with id := "job-2".toList, jobUrl := none }]
        "acme".toList [] "T0".toList).2 = 1 := by
  have h := c9_drop_and_count "acme".toList [] "acme".toList [] "T0".toList "T0".toList
    [ashbyJobUrlOnly, { ashbyJobUrlOnly with id := "job-2".toList, jobUrl := none }]
    [] (fun _ => none) (fun _ => none) "zzz".toList "zzz".toList
    (by decide) (by decide)
  rw [h.1.1, h.1.2.1]
  decide

-- ═══════════════════════════════════════════════════════════════════════
-- C10: all-digit tokens and the derived company name
-- ═══════════════════════════════════════════════════════════════════════

theorem toUpper_of_isDigit (c : Char) (h : c.isDigit = true) : c.toUpper = c := by
  simp only [Char.isDigit, Bool.and_eq_true, decide_eq_true_eq] at h
  simp only [Char.toUpper]
  rw [if_neg]
  rintro ⟨h1, h2⟩
  have hle : c.val.toNat ≤ 57 := by
    have h2' := h.2
    rw [UInt32.le_def, BitVec.le_def] at h2'
    simpa using h2'
  have h1' : 97 ≤ c.val.toNat := h1
  omega

theorem splitDash_no_sep :
    ∀ t : Str, (∀ c ∈ t, ¬(c = '-' ∨ c = '_')) → splitDashUnder t = [t]
  | [], _ => rfl
  | c :: rest, h => by
    have hc := h c (by simp)
    have ih := splitDash_no_sep rest (fun x hx => h x (by simp [hx]))
    simp only [splitDashUnder, if_neg hc, ih]

theorem titleCase_all_digits (t : Str) (hne : t ≠ [])
    (hd : t.all (fun c => c.isDigit) = true) : titleCaseToken t = t := by
  have hdig : ∀ c ∈ t, c.isDigit = true := by
    intro c hc
    exact List.all_eq_true.1 hd c hc
  have hsep : ∀ c ∈ t, ¬(c = '-' ∨ c = '_') := by
    rintro c hc (rfl | rfl) <;> simpa using hdig _ hc
  rw [titleCaseToken, splitDash_no_sep t hsep]
  cases t with
  | nil => exact absurd rfl hne
  | cons c cs =>
    show joinSpace [capitalizeWord (c :: cs)] = c :: cs
    rw [capitalizeWord, toUpper_of_isDigit c (hdig c (by simp))]
    rfl

/-- C10 counterexample: for the all-digit token `12345`, the job-upsert
company-name fallback yields the title-cased token `12345` (non-empty),
not the empty string — only `upsert_boards` blanks it. -/
theorem c10_counterexample :
    "12345".toList.all (fun c => c.isDigit) = true
    ∧ jobUpsertCompanyName "12345".toList [] = "12345".toList
    ∧ upsertBoardsName "12345".toList = []
    ∧ ("12345".toList : Str) ≠ [] := by
  decide

/-- C10 (amended): in the Discovery upsert (`upsert_boards`) an all-digit
token derives the empty company name (protecting the SQL `COALESCE`); the
job-upsert fallback paths perform no such check and derive the digits
unchanged. -/
theorem c10_digit_token (t : Str) (hne : t ≠ [])
    (hd : t.all (fun c => c.isDigit) = true) :
    upsertBoardsName t = [] ∧ jobUpsertCompanyName t [] = t := by
  constructor
  · simp [upsertBoardsName, hd]
  · show (if ([] : Str) = [] then titleCaseToken t else []) = t
    rw [if_pos rfl]
    exact titleCase_all_digits t hne hd

/-- Concrete instance of `c10_digit_token` at token `12345`. -/
theorem c10_digit_token_witness :
    upsertBoardsName "12345".toList = []
    ∧ jobUpsertCompanyName "12345".toList [] = "12345".toList :=
  c10_digit_token "12345".toList (by decide) (by decide)

-- ═══════════════════════════════════════════════════════════════════════
-- C3: upsert idempotence
-- ═══════════════════════════════════════════════════════════════════════

theorem sqlCoalesce_some {α : Type} (a : α) (b : Option α) :
    sqlCoalesce (some a) b = some a := rfl

/-- Re-running the Ashby statement on its own insert changes only
`updated_at`, provided the posting's published timestamp is non-empty. -/
theorem ashbyUpdate_insert (p : AshbyParams) (now1 now2 : Str)
    (hpub : p.publishedAt ≠ []) :
    ashbyUpdateRow (ashbyInsertRow p now1) p now2
      = { ashbyInsertRow p now1 with updatedAt := some now2 } := by
  have hp : nullif p.publishedAt = some p.publishedAt := by simp [nullif, hpub]
  simp [ashbyInsertRow, ashbyUpdateRow, hp, sqlCoalesce_some, sqlCoalesce_self]

/-- Re-running the Greenhouse statement on its own insert changes only
`updated_at`, provided the posting's `updated_at` field is non-empty. -/
theorem greenhouseUpdate_insert (p : GreenhouseParams) (now1 now2 : Str)
    (hupd : p.updatedAt ≠ []) :
    greenhouseUpdateRow (greenhouseInsertRow p now1) p now2
      = { greenhouseInsertRow p now1 with updatedAt := some now2 } := by
  have hp : nullif p.updatedAt = some p.updatedAt := by simp [nullif, hupd]
  simp [greenhouseInsertRow, greenhouseUpdateRow, hp, sqlCoalesce_some,
    sqlCoalesce_self]

theorem ashbyFold_fresh (now : Str) :
    ∀ (stmts : List AshbyParams) (tbl : Str → Option AshbyRow),
      (stmts.map (·.externalId)).Nodup →
      ∀ p ∈ stmts,
        (stmts.foldl (applyAshbyStmt now) tbl) p.externalId
          = some
              (match tbl p.externalId with
               | none => ashbyInsertRow p now
               | some old => ashbyUpdateRow old p now)
  | [], _, _, p, hp => absurd hp (by simp)
  | q :: rest, tbl, hnd, p, hp => by
    simp only [List.map_cons, List.nodup_cons] at hnd
    rcases List.mem_cons.1 hp with rfl | hp
    · rw [List.foldl_cons,
        ashbyFold_not_mem now rest (applyAshbyStmt now tbl p) p.externalId hnd.1]
      simp [applyAshbyStmt]
    · have hne : p.externalId ≠ q.externalId := by
        intro hh
        exact hnd.1 (hh ▸ List.mem_map.2 ⟨p, hp, rfl⟩)
      rw [List.foldl_cons]
      have := ashbyFold_fresh now rest (applyAshbyStmt now tbl q) hnd.2 p hp
      rw [this]
      simp [applyAshbyStmt, hne]

theorem greenhouseFold_fresh (now : Str) :
    ∀ (stmts : List GreenhouseParams) (tbl : Str → Option GreenhouseRow),
      (stmts.map (·.externalId)).Nodup →
      ∀ p ∈ stmts,
        (stmts.foldl (applyGreenhouseStmt now) tbl) p.externalId
          = some
              (match tbl p.externalId with
               | none => greenhouseInsertRow p now
               | some old => greenhouseUpdateRow old p now)
  | [], _, _, p, hp => absurd hp (by simp)
  | q :: rest, tbl, hnd, p, hp => by
    simp only [List.map_cons, List.nodup_cons] at hnd
    rcases List.mem_cons.1 hp with rfl | hp
    · rw [List.foldl_cons,
        greenhouseFold_not_mem now rest (applyGreenhouseStmt now tbl p) p.externalId hnd.1]
      simp [applyGreenhouseStmt]
    · have hne : p.externalId ≠ q.externalId := by
        intro hh
        exact hnd.1 (hh ▸ List.mem_map.2 ⟨p, hp, rfl⟩)
      rw [List.foldl_cons]
      have := greenhouseFold_fresh now rest (applyGreenhouseStmt now tbl q) hnd.2 p hp
      rw [this]
      simp [applyGreenhouseStmt, hne]

/-- C3 counterexample: with an identical input whose `published_at` is
absent, the second run rewrites `posted_at` to the second run's clock —
the rows differ in more than `updated_at`. -/
theorem c3_counterexample :
    ((upsertAshbyJobs (fun _ => none) [ashbyJobUrlOnly] "acme".toList []
          "T1".toList).1 "job-1".toList).map (·.postedAt)
        = some (some "T1".toList)
    ∧ (((upsertAshbyJobs
          ((upsertAshbyJobs (fun _ => none) [ashbyJobUrlOnly] "acme".toList []
              "T1".toList).1)
          [ashbyJobUrlOnly] "acme".toList [] "T2".toList).1)
            "job-1".toList).map (·.postedAt)
        = some (some "T2".toList)
    ∧ (some "T1".toList : Option Str) ≠ some "T2".toList := by
  decide

/-- C3 (amended): for a batch of postings with pairwise-distinct external
ids, all carrying a non-empty published timestamp, inserted into a table
fresh at those ids, re-running the upsert with identical inputs yields
identical rows except `updated_at`, which is rewritten to the second
run's clock; in particular `first_published` and `ats_created_at` keep
the values set by the first insert.  (Without the non-empty-timestamp
hypothesis `posted_at` is also rewritten — see the counterexample.) -/
theorem c3_upsert_idempotent (slug title token name now1 now2 : Str)
    (ajobs : List AshbyJobPosting) (gjobs : List GreenhouseJob)
    (atbl : Str → Option AshbyRow) (gtbl : Str → Option GreenhouseRow)
    (hndA : ((ashbyJobStmts slug title ajobs).map (·.externalId)).Nodup)
    (hfreshA : ∀ p ∈ ashbyJobStmts slug title ajobs, atbl p.externalId = none)
    (hpubA : ∀ p ∈ ashbyJobStmts slug title ajobs, p.publishedAt ≠ [])
    (hndG : ((greenhouseJobStmts token name gjobs).map (·.externalId)).Nodup)
    (hfreshG : ∀ p ∈ greenhouseJobStmts token name gjobs, gtbl p.externalId = none)
    (hpubG : ∀ p ∈ greenhouseJobStmts token name gjobs, p.updatedAt ≠ []) :
    (∀ k,
      (upsertAshbyJobs (upsertAshbyJobs atbl ajobs slug title now1).1
          ajobs slug title now2).1 k
        = if k ∈ (ashbyJobStmts slug title ajobs).map (·.externalId)
          then ((upsertAshbyJobs atbl ajobs slug title now1).1 k).map
              (fun r => { r with updatedAt := some now2 })
          else (upsertAshbyJobs atbl ajobs slug title now1).1 k)
    ∧ (∀ k,
      ((upsertAshbyJobs (upsertAshbyJobs atbl ajobs slug title now1).1
            ajobs slug title now2).1 k).map (·.firstPublished)
        = ((upsertAshbyJobs atbl ajobs slug title now1).1 k).map (·.firstPublished))
    ∧ (∀ k,
      ((upsertAshbyJobs (upsertAshbyJobs atbl ajobs slug title now1).1
            ajobs slug title now2).1 k).map (·.atsCreatedAt)
        = ((upsertAshbyJobs atbl ajobs slug title now1).1 k).map (·.atsCreatedAt))
    ∧ (∀ k,
      (upsertGreenhouseJobs (upsertGreenhouseJobs gtbl gjobs token name now1).1
          gjobs token name now2).1 k
        = if k ∈ (greenhouseJobStmts token name gjobs).map (·.externalId)
          then ((upsertGreenhouseJobs gtbl gjobs token name now1).1 k).map
              (fun r => { r with updatedAt := some now2 })
          else (upsertGreenhouseJobs gtbl gjobs token name now1).1 k)
    ∧ (∀ k,
      ((upsertGreenhouseJobs (upsertGreenhouseJobs gtbl gjobs token name now1).1
            gjobs token name now2).1 k).map (·.atsCreatedAt)
        = ((upsertGreenhouseJobs gtbl gjobs token name now1).1 k).map (·.atsCreatedAt)) := by
  have hmainA : ∀ k,
      (upsertAshbyJobs (upsertAshbyJobs atbl ajobs slug title now1).1
          ajobs slug title now2).1 k
        = if k ∈ (ashbyJobStmts slug title ajobs).map (·.externalId)
          then ((upsertAshbyJobs atbl ajobs slug title now1).1 k).map
              (fun r => { r with updatedAt := some now2 })
          else (upsertAshbyJobs atbl ajobs slug title now1).1 k := by
    intro k
    by_cases hk : k ∈ (ashbyJobStmts slug title ajobs).map (·.externalId)
    · obtain ⟨p, hp, hpk⟩ := List.mem_map.1 hk
      subst hpk
      have h1 : (upsertAshbyJobs atbl ajobs slug title now1).1 p.externalId
          = some (ashbyInsertRow p now1) := by
        have := ashbyFold_fresh now1 (ashbyJobStmts slug title ajobs) atbl hndA p hp
        rw [hfreshA p hp] at this
        exact this
      have h2 : (upsertAshbyJobs (upsertAshbyJobs atbl ajobs slug title now1).1
          ajobs slug title now2).1 p.externalId
          = some (ashbyUpdateRow (ashbyInsertRow p now1) p now2) := by
        have := ashbyFold_fresh now2 (ashbyJobStmts slug title ajobs)
          (upsertAshbyJobs atbl ajobs slug title now1).1 hndA p hp
        rw [h1] at this
        exact this
      rw [if_pos hk, h1, h2, Option.map_some', ashbyUpdate_insert p now1 now2 (hpubA p hp)]
    · rw [if_neg hk]
      exact ashbyFold_not_mem now2 _ _ k hk
  have hmainG : ∀ k,
      (upsertGreenhouseJobs (upsertGreenhouseJobs gtbl gjobs token name now1).1
          gjobs token name now2).1 k
        = if k ∈ (greenhouseJobStmts token name gjobs).map (·.externalId)
          then ((upsertGreenhouseJobs gtbl gjobs token name now1).1 k).map
              (fun r => { r with updatedAt := some now2 })
          else (upsertGreenhouseJobs gtbl gjobs token name now1).1 k := by
    intro k
    by_cases hk : k ∈ (greenhouseJobStmts token name gjobs).map (·.externalId)
    · obtain ⟨p, hp, hpk⟩ := List.mem_map.1 hk
      subst hpk
      have h1 : (upsertGreenhouseJobs gtbl gjobs token name now1).1 p.externalId
          = some (greenhouseInsertRow p now1) := by
        have := greenhouseFold_fresh now1 (greenhouseJobStmts token name gjobs) gtbl hndG p hp
        rw [hfreshG p hp] at this
        exact this
      have h2 : (upsertGreenhouseJobs (upsertGreenhouseJobs gtbl gjobs token name now1).1
          gjobs token name now2).1 p.externalId
          = some (greenhouseUpdateRow (greenhouseInsertRow p now1) p now2) := by
        have := greenhouseFold_fresh now2 (greenhouseJobStmts token name gjobs)
          (upsertGreenhouseJobs gtbl gjobs token name now1).1 hndG p hp
        rw [h1] at this
        exact this
      rw [if_pos hk, h1, h2, Option.map_some',
        greenhouseUpdate_insert p now1 now2 (hpubG p hp)]
    · rw [if_neg hk]
      exact greenhouseFold_not_mem now2 _ _ k hk
  refine ⟨hmainA, fun k => ?_, fun k => ?_, hmainG, fun k => ?_⟩
  · rw [hmainA k]
    by_cases hk : k ∈ (ashbyJobStmts slug title ajobs).map (·.externalId)
    · rw [if_pos hk]
      cases (upsertAshbyJobs atbl ajobs slug title now1).1 k <;> rfl
    · rw [if_neg hk]
  · rw [hmainA k]
    by_cases hk : k ∈ (ashbyJobStmts slug title ajobs).map (·.externalId)
    · rw [if_pos hk]
      cases (upsertAshbyJobs atbl ajobs slug title now1).1 k <;> rfl
    · rw [if_neg hk]
  · rw [hmainG k]
    by_cases hk : k ∈ (greenhouseJobStmts token name gjobs).map (·.externalId)
    · rw [if_pos hk]
      cases (upsertGreenhouseJobs gtbl gjobs token name now1).1 k <;> rfl
    · rw [if_neg hk]

/-- Concrete instance of `c3_upsert_idempotent`: one posting with a
published timestamp, run twice at clocks `T1` then `T2`. -/
theorem c3_upsert_idempotent_witness :
    (upsertAshbyJobs
        (upsertAshbyJobs (fun _ => none)
          [{ ashbyJobUrlOnly with publishedAt := some "2025-01-01".toList }]
          "acme".toList [] "T1".toList).1
        [{ ashbyJobUrlOnly with publishedAt := some "2025-01-01".toList }]
        "acme".toList [] "T2".toList).1 "job-1".toList
      = ((upsertAshbyJobs (fun _ => none)
          [{ ashbyJobUrlOnly with publishedAt := some "2025-01-01".toList }]
          "acme".toList [] "T1".toList).1 "job-1".toList).map
          (fun r => { r with updatedAt := some "T2".toList }) := by
  have h := (c3_upsert_idempotent "acme".toList [] "tok".toList [] "T1".toList "T2".toList
    [{ ashbyJobUrlOnly with publishedAt := some "2025-01-01".toList }] []
    (fun _ => none) (fun _ => none)
    (by decide) (by decide) (by decide) (by decide) (by decide) (by decide)).1
      "job-1".toList
  rw [h, if_pos (by decide)]

-- ═══════════════════════════════════════════════════════════════════════
-- C5: migration runner (src/db.rs `apply_pending_migrations`)
-- ═══════════════════════════════════════════════════════════════════════

/-- `sql.split(';').map(str::trim).filter(|s| !s.is_empty())`. -/
def splitStmts (sql : String) : List String :=
  ((sql.splitOn ";").map String.trim).filter (fun s => s ≠ "")

/-- `INSERT OR IGNORE INTO _migrations (name) VALUES (?1)`. -/
def insertOrIgnore (applied : List String) (name : String) : List String :=
  if name ∈ applied then applied else applied ++ [name]

/-- `apply_pending_migrations`: for each `(name, sql)` in order, skip if
the name is already in `_migrations`; otherwise execute every split
statement, discarding each outcome (`let _ = db.prepare(stmt)…run()`),
then record the name.  `exec` is the statement-execution oracle whose
result the runner discards; returned are the `_migrations` rows and the
trace of executed statements. -/
def applyPendingMigrations (exec : String → Except String Unit) :
    List (String × String) → List String → List String × List String
  | [], applied => (applied, [])
  | (name, sql) :: rest, applied =>
    if name ∈ applied then applyPendingMigrations exec rest applied
    else
      let stmts := splitStmts sql
      let _ := stmts.map exec
      let res := applyPendingMigrations exec rest (insertOrIgnore applied name)
      (res.1, stmts ++ res.2)

theorem apm_applied_mono (exec : String → Except String Unit) :
    ∀ (migs : List (String × String)) (applied : List String) (n : String),
      n ∈ applied → n ∈ (applyPendingMigrations exec migs applied).1
  | [], _, _, h => h
  | (name, sql) :: rest, applied, n, h => by
    unfold applyPendingMigrations
    by_cases hm : name ∈ applied
    · rw [if_pos hm]
      exact apm_applied_mono exec rest applied n h
    · rw [if_neg hm]
      exact apm_applied_mono exec rest _ n (by simp [insertOrIgnore, hm, h])

theorem apm_names_applied (exec : String → Except String Unit) :
    ∀ (migs : List (String × String)) (applied : List String),
      ∀ nm ∈ migs, nm.1 ∈ (applyPendingMigrations exec migs applied).1
  | [], _, nm, h => absurd h (by simp)
  | (name, sql) :: rest, applied, nm, h => by
    unfold applyPendingMigrations
    rcases List.mem_cons.1 h with rfl | h
    · by_cases hm : name ∈ applied
      · rw [if_pos hm]
        exact apm_applied_mono exec rest applied name hm
      · rw [if_neg hm]
        exact apm_applied_mono exec rest _ name (by simp [insertOrIgnore, hm])
    · by_cases hm : name ∈ applied
      · rw [if_pos hm]
        exact apm_names_applied exec rest applied nm h
      · rw [if_neg hm]
        exact apm_names_applied exec rest _ nm h

theorem apm_all_applied (exec : String → Except String Unit) :
    ∀ (migs : List (String × String)) (applied : List String),
      (∀ nm ∈ migs, nm.1 ∈ applied) →
      applyPendingMigrations exec migs applied = (applied, [])
  | [], _, _ => rfl
  | (name, sql) :: rest, applied, h => by
    unfold applyPendingMigrations
    rw [if_pos (h (name, sql) (by simp))]
    exact apm_all_applied exec rest applied (fun nm hnm => h nm (by simp [hnm]))

theorem apm_nodup (exec : String → Except String Unit) :
    ∀ (migs : List (String × String)) (applied : List String),
      applied.Nodup → (applyPendingMigrations exec migs applied).1.Nodup
  | [], _, h => h
  | (name, sql) :: rest, applied, h => by
    unfold applyPendingMigrations
    by_cases hm : name ∈ applied
    · rw [if_pos hm]
      exact apm_nodup exec rest applied h
    · rw [if_neg hm]
      refine apm_nodup exec rest _ ?_
      simp only [insertOrIgnore, if_neg hm]
      exact List.Nodup.append h (List.nodup_singleton name)
        (fun x hx hx' => hm ((by simpa using hx') ▸ hx))

theorem apm_exec_irrelevant (exec exec' : String → Except String Unit) :
    ∀ (migs : List (String × String)) (applied : List String),
      applyPendingMigrations exec migs applied
        = applyPendingMigrations exec' migs applied
  | [], _ => rfl
  | (name, sql) :: rest, applied => by
    unfold applyPendingMigrations
    by_cases hm : name ∈ applied
    · rw [if_pos hm, if_pos hm]
      exact apm_exec_irrelevant exec exec' rest applied
    · rw [if_neg hm, if_neg hm, apm_exec_irrelevant exec exec' rest]

/-- C5: applying an ordered migration list twice in a row leaves the
`_migrations` rows unchanged after the second run and executes no
statement in it (each name is applied at most once; present names are
skipped); and the outcome never depends on the success or failure of the
individual migration statements, whose results the runner discards. -/
theorem c5_migrations (exec : String → Except String Unit)
    (migs : List (String × String)) (applied : List String)
    (hnd : applied.Nodup) :
    (applyPendingMigrations exec migs
        (applyPendingMigrations exec migs applied).1).1
      = (applyPendingMigrations exec migs applied).1
    ∧ (applyPendingMigrations exec migs
        (applyPendingMigrations exec migs applied).1).2 = []
    ∧ (applyPendingMigrations exec migs applied).1.Nodup
    ∧ (∀ exec' : String → Except String Unit,
        applyPendingMigrations exec' migs applied
          = applyPendingMigrations exec migs applied) := by
  have hall : ∀ nm ∈ migs, nm.1 ∈ (applyPendingMigrations exec migs applied).1 :=
    apm_names_applied exec migs applied
  have hsecond := apm_all_applied exec migs
    (applyPendingMigrations exec migs applied).1 hall
  refine ⟨?_, ?_, apm_nodup exec migs applied hnd,
    fun exec' => apm_exec_irrelevant exec' exec migs applied⟩
  · rw [hsecond]
  · rw [hsecond]

/-- Concrete instance of `c5_migrations` on a two-migration list. -/
theorem c5_migrations_witness :
    (applyPendingMigrations (fun _ => .ok ())
        [("0002_enrichment", "ALTER TABLE b ADD COLUMN x TEXT; CREATE INDEX i ON b(x)"),
         ("0003_jobs_external_id_unique", "CREATE UNIQUE INDEX j ON jobs(external_id)")]
        (applyPendingMigrations (fun _ => .ok ())
          [("0002_enrichment", "ALTER TABLE b ADD COLUMN x TEXT; CREATE INDEX i ON b(x)"),
           ("0003_jobs_external_id_unique", "CREATE UNIQUE INDEX j ON jobs(external_id)")]
          []).1).1
      = (applyPendingMigrations (fun _ => .ok ())
          [("0002_enrichment", "ALTER TABLE b ADD COLUMN x TEXT; CREATE INDEX i ON b(x)"),
           ("0003_jobs_external_id_unique", "CREATE UNIQUE INDEX j ON jobs(external_id)")]
          []).1 :=
  (c5_migrations (fun _ => .ok ())
    [("0002_enrichment", "ALTER TABLE b ADD COLUMN x TEXT; CREATE INDEX i ON b(x)"),
     ("0003_jobs_external_id_unique", "CREATE UNIQUE INDEX j ON jobs(external_id)")]
    [] List.nodup_nil).1

-- ═══════════════════════════════════════════════════════════════════════
-- Batch orchestration (src/lib.rs `handle_crawl`, `cron_handler_inner`)
-- ═══════════════════════════════════════════════════════════════════════

/-- `AshbyBoard` of src/lib.rs (the single-provider predecessor of
`DiscoveredBoard`, keyed by `slug`). -/
structure ABoard where
  slug : Str
  url : Str
  timestamp : Str
  crawlId : Str
  status : Option Str
  mime : Option Str
  warcFile : Option Str
  warcOffset : Option Nat
  warcLength : Option Nat
deriving DecidableEq, Repr

/-- One D1 write issued by the orchestration paths: a `crawl_progress`
upsert (`save_progress`), a Discovery commit (`upsert_boards` /
`auto_enrich_boards` into `companies`), or a Sync commit
(`upsert_jobs_to_d1` into `jobs`, recorded as slug and row count). -/
inductive DbWrite
  | progress (crawlId : Str) (total current : Nat) (status : Str) (found : Nat)
  | companies (boards : List ABoard)
  | enrich (boards : List ABoard)
  | jobs (slug : Str) (count : Nat)
deriving DecidableEq, Repr

def DbWrite.isProgress : DbWrite → Bool
  | .progress _ _ _ _ _ => true
  | _ => false

def DbWrite.isCompanies : DbWrite → Bool
  | .companies _ => true
  | .enrich _ => true
  | _ => false

def DbWrite.isJobs : DbWrite → Bool
  | .jobs _ _ => true
  | _ => false

/-- `PAGES_PER_CRON_RUN`. -/
def pagesPerCronRun : Nat := 10

/-- A `crawl_progress` row as read back: `(total, current, status, found)`. -/
abbrev Progress := Nat × Nat × Str × Nat

/-- `true` on a failed page fetch. -/
def isErrE {ε α : Type} : Except ε α → Bool
  | .error _ => true
  | .ok _ => false

/-- Step 2 of `cron_handler_inner`: resolve `(total, start, found)` from
the stored cursor; a `done` cursor degenerates to `total = 0` (Phase 1
skipped); an absent cursor takes the page count from the index API, whose
failure propagates. -/
def cronStep2 (prog : Option Progress) (pageInfo : Except Str Nat) :
    Except Str (Nat × Nat × Nat) :=
  match prog with
  | some (t, c, s, f) =>
    if s = "done".toList then .ok (0, 0, f) else .ok (t, c, f)
  | none =>
    match pageInfo with
    | .ok n => .ok (n, 0, 0)
    | .error e => .error e

/-- `format!("Batch aborted after {} page errors", n)`. -/
def cronAbortMsg (n : Nat) : Str :=
  "Batch aborted after ".toList ++ (toString n).toList ++ " page errors".toList

/-- Step 4 of `cron_handler_inner`: walk the page results in page order,
extending `all_new_boards` on success and counting errors; on the third
error persist the cursor with status `error` at that page and return the
abort error. -/
def cronPagesLoop (cid : Str) (total found : Nat)
    (fetch : Nat → Except Str (List ABoard)) :
    List Nat → Nat → List ABoard → List ABoard × List DbWrite × Option Str
  | [], _, acc => (acc, [], none)
  | pg :: rest, errs, acc =>
    match fetch pg with
    | .ok bs => cronPagesLoop cid total found fetch rest errs (acc ++ bs)
    | .error _ =>
      if errs + 1 ≥ 3 then
        (acc, [.progress cid total pg "error".toList found],
          some (cronAbortMsg (errs + 1)))
      else cronPagesLoop cid total found fetch rest (errs + 1) acc

/-- `cron_handler_inner`, steps 2–6, as the sequence of D1 writes and the
invocation outcome.  `fetch` gives each CDX page's result; `ashbyOk` is
the successful half of the Phase 2 board fetches (the Concurrent Runner's
error list only gets logged).  The source runs the Phase 1 and Phase 2
writes concurrently on disjoint tables; the trace lists Phase 1 first. -/
def cronRunOk (cid : Str) (total start found : Nat)
    (fetch : Nat → Except Str (List ABoard))
    (ashbyOk : List (Str × AshbyJobBoardResponse)) :
    List DbWrite × Except Str Unit :=
  let endPage := if total > 0 then min (start + pagesPerCronRun) total else 0
  let preWrites : List DbWrite :=
    if total > 0 then [.progress cid total start "running".toList found] else []
  match cronPagesLoop cid total found fetch
      (List.range' start (endPage - start)) 0 [] with
  | (_, errWrites, some e) => (preWrites ++ errWrites, .error e)
  | (boards, errWrites, none) =>
    let upserted := if total > 0 then boards.length else 0
    let phase1 : List DbWrite :=
      if total > 0 then [.companies boards, .enrich boards] else []
    let phase2 : List DbWrite :=
      ashbyOk.map (fun sb =>
        .jobs sb.1 (ashbyJobStmts sb.1 (sb.2.title.getD []) sb.2.jobs).length)
    let finalWrite : List DbWrite :=
      if total > 0 then
        [.progress cid total endPage
          (if endPage ≥ total then "done".toList else "running".toList)
          (found + upserted)]
      else []
    (preWrites ++ errWrites ++ phase1 ++ phase2 ++ finalWrite, .ok ())

def cronRun (cid : Str) (prog : Option Progress) (pageInfo : Except Str Nat)
    (fetch : Nat → Except Str (List ABoard))
    (ashbyOk : List (Str × AshbyJobBoardResponse)) :
    List DbWrite × Except Str Unit :=
  match cronStep2 prog pageInfo with
  | .error e => ([], .error e)
  | .ok (total, start, found) => cronRunOk cid total start found fetch ashbyOk

/-- The fail-fast page loop of `handle_crawl` (`let boards = result?`). -/
def hcPagesLoop (fetch : Nat → Except Str (List ABoard)) :
    List Nat → Except Str (List ABoard)
  | [] => .ok []
  | pg :: rest =>
    match fetch pg with
    | .error e => .error e
    | .ok bs => (hcPagesLoop fetch rest).map (fun acc => bs ++ acc)

/-- The non-`done` body of `handle_crawl`: persist `running` at the start
page, fetch the page window, commit the combined Discovery batch, then
persist the advanced cursor. -/
def hcBody (cid : Str) (ppr total start found : Nat)
    (fetch : Nat → Except Str (List ABoard)) : List DbWrite × Except Str Unit :=
  let w1 := DbWrite.progress cid total start "running".toList found
  let endPage := min (start + ppr) total
  match hcPagesLoop fetch (List.range' start (endPage - start)) with
  | .error e => ([w1], .error e)
  | .ok boards =>
    ([w1, .companies boards, .enrich boards,
      .progress cid total endPage
        (if endPage ≥ total then "done".toList else "running".toList)
        (found + boards.length)],
     .ok ())

/-- `handle_crawl` (GET /crawl): a `done` cursor returns at once with no
writes; an absent cursor initialises from the index API page count. -/
def handleCrawl (cid : Str) (ppr : Nat) (prog : Option Progress)
    (pageInfo : Except Str Nat) (fetch : Nat → Except Str (List ABoard)) :
    List DbWrite × Except Str Unit :=
  match prog with
  | some (t, c, s, f) =>
    if s = "done".toList then ([], .ok ())
    else hcBody cid ppr t c f fetch
  | none =>
    match pageInfo with
    | .error e => ([], .error e)
    | .ok n => hcBody cid ppr n 0 0 fetch

-- Loop lemmas -----------------------------------------------------------

theorem cronLoop_no_abort (cid : Str) (total found : Nat)
    (fetch : Nat → Except Str (List ABoard)) :
    ∀ (pages : List Nat) (errs : Nat) (acc : List ABoard),
      errs + pages.countP (fun pg => isErrE (fetch pg)) < 3 →
      ∃ boards, cronPagesLoop cid total found fetch pages errs acc
        = (boards, [], none)
  | [], _, acc, _ => ⟨acc, rfl⟩
  | pg :: rest, errs, acc, h => by
    have hcount := List.countP_cons (fun pg => isErrE (fetch pg)) pg rest
    unfold cronPagesLoop
    cases hf : fetch pg with
    | ok bs =>
      have herrpg : isErrE (fetch pg) = false := by rw [hf]; rfl
      refine cronLoop_no_abort cid total found fetch rest errs (acc ++ bs) ?_
      rw [hcount, herrpg, if_neg (by simp)] at h
      omega
    | error e =>
      have herrpg : isErrE (fetch pg) = true := by rw [hf]; rfl
      rw [hcount, herrpg, if_pos rfl] at h
      rw [if_neg (by omega)]
      exact cronLoop_no_abort cid total found fetch rest (errs + 1) acc (by omega)

theorem cronLoop_abort (cid : Str) (total found : Nat)
    (fetch : Nat → Except Str (List ABoard)) :
    ∀ (pages : List Nat) (errs : Nat) (acc : List ABoard),
      errs < 3 →
      3 ≤ errs + pages.countP (fun pg => isErrE (fetch pg)) →
      ∃ pg boards,
        pg ∈ pages ∧ isErrE (fetch pg) = true ∧
        cronPagesLoop cid total found fetch pages errs acc
          = (boards, [.progress cid total pg "error".toList found],
             some (cronAbortMsg 3))
  | [], errs, _, hlt, hge => by simp at hge; omega
  | pg :: rest, errs, acc, hlt, hge => by
    have hcount := List.countP_cons (fun pg => isErrE (fetch pg)) pg rest
    unfold cronPagesLoop
    cases hf : fetch pg with
    | ok bs =>
      have herrpg : isErrE (fetch pg) = false := by rw [hf]; rfl
      rw [hcount, herrpg, if_neg (by simp)] at hge
      obtain ⟨pg', boards, hmem, herr, heq⟩ :=
        cronLoop_abort cid total found fetch rest errs (acc ++ bs) hlt
          (by omega)
      exact ⟨pg', boards, by simp [hmem], herr, heq⟩
    | error e =>
      have herrpg : isErrE (fetch pg) = true := by rw [hf]; rfl
      by_cases h3 : errs + 1 ≥ 3
      · rw [if_pos h3]
        refine ⟨pg, acc, by simp, herrpg, ?_⟩
        rw [show errs + 1 = 3 by omega]
      · rw [if_neg h3]
        rw [hcount, herrpg, if_pos rfl] at hge
        obtain ⟨pg', boards, hmem, herr, heq⟩ :=
          cronLoop_abort cid total found fetch rest (errs + 1) acc (by omega)
            (by omega)
        exact ⟨pg', boards, by simp [hmem], herr, heq⟩

theorem cronLoop_none_empty (cid : Str) (total found : Nat)
    (fetch : Nat → Except Str (List ABoard)) :
    ∀ (pages : List Nat) (errs : Nat) (acc b : List ABoard) (w : List DbWrite),
      cronPagesLoop cid total found fetch pages errs acc = (b, w, none) → w = []
  | [], _, acc, b, w, h => by
    simp only [cronPagesLoop] at h
    exact congrArg (fun x => x.2.1) h.symm
  | pg :: rest, errs, acc, b, w, h => by
    unfold cronPagesLoop at h
    cases hf : fetch pg with
    | ok bs =>
      rw [hf] at h
      exact cronLoop_none_empty cid total found fetch rest errs (acc ++ bs) b w h
    | error e =>
      rw [hf] at h
      by_cases h3 : errs + 1 ≥ 3
      · rw [if_pos h3] at h
        cases congrArg (·.2.2) h
      · rw [if_neg h3] at h
        exact cronLoop_none_empty cid total found fetch rest (errs + 1) acc b w h

theorem filter_isProgress_map_jobs {α : Type} (g : α → Str) (n : α → Nat)
    (l : List α) :
    (l.map (fun a => DbWrite.jobs (g a) (n a))).filter DbWrite.isProgress = [] := by
  induction l with
  | nil => rfl
  | cons a as ih => simp [List.filter_cons, DbWrite.isProgress, ih]

theorem cronRun_step2 (cid : Str) (prog : Option Progress)
    (pageInfo : Except Str Nat) (fetch : Nat → Except Str (List ABoard))
    (ashbyOk : List (Str × AshbyJobBoardResponse)) (t c f : Nat)
    (h : cronStep2 prog pageInfo = .ok (t, c, f)) :
    cronRun cid prog pageInfo fetch ashbyOk = cronRunOk cid t c f fetch ashbyOk := by
  unfold cronRun
  rw [h]

/-- C1 (amended): once ≥ 3 CDX page fetches fail in the batch window, the
cursor is persisted with status `error` at the failing page, the
invocation aborts with the batch error, and neither the Discovery writes
(`companies` upserts/enrichment) nor the Sync writes (`jobs` upserts) of
that invocation happen — the early error return precedes all of
Step 5's writes, even though the board fetch results were already in
hand. -/
theorem c1_error_budget (cid : Str) (prog : Option Progress)
    (pageInfo : Except Str Nat) (fetch : Nat → Except Str (List ABoard))
    (ashbyOk : List (Str × AshbyJobBoardResponse)) (t c f : Nat)
    (h2 : cronStep2 prog pageInfo = .ok (t, c, f)) (ht : 0 < t)
    (herr : 3 ≤ (List.range' c (min (c + pagesPerCronRun) t - c)).countP
        (fun pg => isErrE (fetch pg))) :
    ∃ pg,
      pg ∈ List.range' c (min (c + pagesPerCronRun) t - c)
      ∧ isErrE (fetch pg) = true
      ∧ (cronRun cid prog pageInfo fetch ashbyOk).1
          = [.progress cid t c "running".toList f,
             .progress cid t pg "error".toList f]
      ∧ (cronRun cid prog pageInfo fetch ashbyOk).2 = .error (cronAbortMsg 3)
      ∧ ((cronRun cid prog pageInfo fetch ashbyOk).1.filter DbWrite.isCompanies) = []
      ∧ ((cronRun cid prog pageInfo fetch ashbyOk).1.filter DbWrite.isJobs) = [] := by
  obtain ⟨pg, boards, hmem, herrpg, heq⟩ :=
    cronLoop_abort cid t f fetch
      (List.range' c (min (c + pagesPerCronRun) t - c)) 0 []
      (by omega) (by simpa using herr)
  have hcron : cronRun cid prog pageInfo fetch ashbyOk
      = ([.progress cid t c "running".toList f,
          .progress cid t pg "error".toList f], .error (cronAbortMsg 3)) := by
    rw [cronRun_step2 cid prog pageInfo fetch ashbyOk t c f h2]
    simp only [cronRunOk, if_pos ht]
    rw [heq]
    rfl
  refine ⟨pg, hmem, herrpg, ?_, ?_, ?_, ?_⟩ <;>
    rw [hcron] <;>
    simp [DbWrite.isCompanies, DbWrite.isJobs]

/-- C1 counterexample: a batch whose five CDX pages all fail, while the
Phase 2 fetches already returned one board with one valid posting.  The
trace holds only the two cursor writes — in particular no `jobs` write —
refuting the claim that the Sync phase is still committed. -/
theorem c1_counterexample :
    3 ≤ (List.range' 0 (min (0 + pagesPerCronRun) 5 - 0)).countP
        (fun pg => isErrE ((fun _ => (.error "boom".toList : Except Str (List ABoard))) pg))
    ∧ (cronRun "CC".toList (some (5, 0, "running".toList, 0)) (.ok 5)
        (fun _ => .error "boom".toList)
        [("acme".toList, { title := some "Acme".toList, jobs := [ashbyJobUrlOnly] })]).1
      = [.progress "CC".toList 5 0 "running".toList 0,
         .progress "CC".toList 5 2 "error".toList 0]
    ∧ ((cronRun "CC".toList (some (5, 0, "running".toList, 0)) (.ok 5)
        (fun _ => .error "boom".toList)
        [("acme".toList, { title := some "Acme".toList, jobs := [ashbyJobUrlOnly] })]).1.filter
          DbWrite.isJobs) = []
    ∧ (ashbyJobStmts "acme".toList "Acme".toList [ashbyJobUrlOnly]).length = 1 := by
  decide

/-- Concrete instance of `c1_error_budget`. -/
theorem c1_error_budget_witness :
    ∃ pg,
      pg ∈ List.range' 0 (min (0 + pagesPerCronRun) 5 - 0)
      ∧ isErrE ((fun _ => (.error "boom".toList : Except Str (List ABoard))) pg) = true
      ∧ (cronRun "CC".toList (some (5, 0, "running".toList, 0)) (.ok 5)
          (fun _ => .error "boom".toList) []).1
          = [.progress "CC".toList 5 0 "running".toList 0,
             .progress "CC".toList 5 pg "error".toList 0]
      ∧ (cronRun "CC".toList (some (5, 0, "running".toList, 0)) (.ok 5)
          (fun _ => .error "boom".toList) []).2 = .error (cronAbortMsg 3)
      ∧ (((cronRun "CC".toList (some (5, 0, "running".toList, 0)) (.ok 5)
          (fun _ => .error "boom".toList) []).1).filter DbWrite.isCompanies) = []
      ∧ (((cronRun "CC".toList (some (5, 0, "running".toList, 0)) (.ok 5)
          (fun _ => .error "boom".toList) []).1).filter DbWrite.isJobs) = [] :=
  c1_error_budget "CC".toList (some (5, 0, "running".toList, 0)) (.ok 5)
    (fun _ => .error "boom".toList) [] 5 0 0 rfl (by decide) (by decide)

theorem hcBody_ok (cid : Str) (ppr total start found : Nat)
    (fetch : Nat → Except Str (List ABoard))
    (hres : (hcBody cid ppr total start found fetch).2 = .ok ()) :
    ∃ boards,
      hcBody cid ppr total start found fetch
        = ([.progress cid total start "running".toList found,
            .companies boards, .enrich boards,
            .progress cid total (min (start + ppr) total)
              (if min (start + ppr) total ≥ total then "done".toList
               else "running".toList)
              (found + boards.length)], .ok ()) := by
  simp only [hcBody] at hres ⊢
  cases hloop : hcPagesLoop fetch (List.range' start (min (start + ppr) total - start)) with
  | error e =>
    rw [hloop] at hres
    simp at hres
  | ok boards =>
    exact ⟨boards, rfl⟩

theorem filter_isProgress_phase2 (ashbyOk : List (Str × AshbyJobBoardResponse)) :
    (ashbyOk.map (fun sb =>
        DbWrite.jobs sb.1
          (ashbyJobStmts sb.1 (sb.2.title.getD []) sb.2.jobs).length)).filter
      DbWrite.isProgress = [] := by
  induction ashbyOk with
  | nil => rfl
  | cons a as ih => simp [List.filter_cons, DbWrite.isProgress, ih]

theorem cronRunOk_success (cid : Str) (t c f : Nat)
    (fetch : Nat → Except Str (List ABoard))
    (ashbyOk : List (Str × AshbyJobBoardResponse)) (ht : 0 < t)
    (hres : (cronRunOk cid t c f fetch ashbyOk).2 = .ok ()) :
    ∃ boards : List ABoard,
      (cronRunOk cid t c f fetch ashbyOk).1.filter DbWrite.isProgress
        = [.progress cid t c "running".toList f,
           .progress cid t (min (c + pagesPerCronRun) t)
             (if min (c + pagesPerCronRun) t ≥ t then "done".toList
              else "running".toList)
             (f + boards.length)] := by
  simp only [cronRunOk, if_pos ht] at hres ⊢
  rcases hloop : cronPagesLoop cid t f fetch
      (List.range' c (min (c + pagesPerCronRun) t - c)) 0 [] with ⟨b, w, ab⟩
  cases ab with
  | some e =>
    rw [hloop] at hres
    simp at hres
  | none =>
    have hw : w = [] := cronLoop_none_empty cid t f fetch _ 0 [] b w hloop
    subst hw
    refine ⟨b, ?_⟩
    simp [List.filter_append, List.filter_cons, DbWrite.isProgress,
      filter_isProgress_phase2]

/-- C4: after any successful Discovery phase the persisted `current_page`
is `end = min(start + pages_per_run, total) ≥ start` (it never
decreases, given the stored invariant `current ≤ total`); and a cursor
whose status is `done` is a fixed point — both entry points return or
skip Phase 1 without writing any cursor change. -/
theorem c4_cursor_monotonic :
    (∀ (cid : Str) (ppr t c f : Nat) (pageInfo : Except Str Nat)
        (fetch : Nat → Except Str (List ABoard)),
      handleCrawl cid ppr (some (t, c, "done".toList, f)) pageInfo fetch
        = ([], .ok ()))
    ∧ (∀ (cid : Str) (t c f : Nat) (pageInfo : Except Str Nat)
        (fetch : Nat → Except Str (List ABoard))
        (ashbyOk : List (Str × AshbyJobBoardResponse)),
      ((cronRun cid (some (t, c, "done".toList, f)) pageInfo fetch ashbyOk).1.filter
          DbWrite.isProgress) = [])
    ∧ (∀ (cid : Str) (ppr t c f : Nat) (s : Str) (pageInfo : Except Str Nat)
        (fetch : Nat → Except Str (List ABoard)),
      s ≠ "done".toList → c ≤ t →
      (handleCrawl cid ppr (some (t, c, s, f)) pageInfo fetch).2 = .ok () →
      ∃ boards : List ABoard,
        (handleCrawl cid ppr (some (t, c, s, f)) pageInfo fetch).1
          = [.progress cid t c "running".toList f,
             .companies boards, .enrich boards,
             .progress cid t (min (c + ppr) t)
               (if min (c + ppr) t ≥ t then "done".toList else "running".toList)
               (f + boards.length)]
        ∧ c ≤ min (c + ppr) t)
    ∧ (∀ (cid : Str) (prog : Option Progress) (pageInfo : Except Str Nat)
        (fetch : Nat → Except Str (List ABoard))
        (ashbyOk : List (Str × AshbyJobBoardResponse)) (t c f : Nat),
      cronStep2 prog pageInfo = .ok (t, c, f) → 0 < t → c ≤ t →
      (cronRun cid prog pageInfo fetch ashbyOk).2 = .ok () →
      ∃ boards : List ABoard,
        ((cronRun cid prog pageInfo fetch ashbyOk).1.filter DbWrite.isProgress)
          = [.progress cid t c "running".toList f,
             .progress cid t (min (c + pagesPerCronRun) t)
               (if min (c + pagesPerCronRun) t ≥ t then "done".toList
                else "running".toList)
               (f + boards.length)]
        ∧ c ≤ min (c + pagesPerCronRun) t) := by
  refine ⟨?_, ?_, ?_, ?_⟩
  · intro cid ppr t c f pageInfo fetch
    simp [handleCrawl]
  · intro cid t c f pageInfo fetch ashbyOk
    have hstep : cronStep2 (some (t, c, "done".toList, f)) pageInfo = .ok (0, 0, f) := by
      simp [cronStep2]
    rw [cronRun_step2 cid _ pageInfo fetch ashbyOk 0 0 f hstep]
    have h0 : ¬ ((0 : Nat) > 0) := by omega
    simp only [cronRunOk, if_neg h0]
    have hrange : List.range' 0 (0 - 0) = [] := by simp
    rw [hrange]
    simp only [cronPagesLoop]
    simp [List.filter_append, filter_isProgress_phase2]
  · intro cid ppr t c f s pageInfo fetch hs hct hres
    have hh : handleCrawl cid ppr (some (t, c, s, f)) pageInfo fetch
        = hcBody cid ppr t c f fetch := by
      simp only [handleCrawl]
      rw [if_neg hs]
    rw [hh] at hres ⊢
    obtain ⟨boards, hb⟩ := hcBody_ok cid ppr t c f fetch hres
    refine ⟨boards, ?_, ?_⟩
    · rw [hb]
    · exact le_min (Nat.le_add_right c ppr) hct
  · intro cid prog pageInfo fetch ashbyOk t c f hstep ht hct hres
    rw [cronRun_step2 cid prog pageInfo fetch ashbyOk t c f hstep] at hres ⊢
    obtain ⟨boards, hb⟩ := cronRunOk_success cid t c f fetch ashbyOk ht hres
    exact ⟨boards, hb, le_min (Nat.le_add_right c pagesPerCronRun) hct⟩

/-- Concrete instance of `c4_cursor_monotonic`: a successful resume from
page 2 of 12 advances the cursor to `min(2+10, 12) = 12` and flips the
status to `done`; a `done` cursor produces no cursor write. -/
theorem c4_cursor_monotonic_witness :
    handleCrawl "CC".toList 3 (some (12, 2, "done".toList, 7)) (.ok 12)
        (fun _ => .ok []) = ([], .ok ())
    ∧ (∃ boards : List ABoard,
        ((cronRun "CC".toList (some (12, 2, "running".toList, 7)) (.ok 12)
            (fun _ => .ok []) []).1.filter DbWrite.isProgress)
          = [.progress "CC".toList 12 2 "running".toList 7,
             .progress "CC".toList 12 (min (2 + pagesPerCronRun) 12)
               (if min (2 + pagesPerCronRun) 12 ≥ 12 then "done".toList
                else "running".toList)
               (7 + boards.length)]
        ∧ 2 ≤ min (2 + pagesPerCronRun) 12) :=
  ⟨c4_cursor_monotonic.1 "CC".toList 3 12 2 7 (.ok 12) (fun _ => .ok []),
   c4_cursor_monotonic.2.2.2 "CC".toList (some (12, 2, "running".toList, 7)) (.ok 12)
     (fun _ => .ok []) [] 12 2 7 rfl (by decide) (by decide) rfl⟩

end AshbyCrawler
